import Mathlib

/-!
Verification development for `myenv` (src/myenv.py), a single-file Python
program that reconciles a user's home directory (symlinks, file copies,
environment exports) against a set of declaratively selected "profiles".

The shallow embedding below translates the Python source into Lean:

* Python strings are Lean `String`s; the handful of string primitives the
  source uses (`startswith`, `endswith`, `lower`, slicing at the first `.`)
  are defined over `String.data` so that they are easy to reason about.
* The POSIX filesystem is modelled as a flat association list from absolute
  path strings to nodes (regular file, directory, or symlink carrying its
  raw target string).  `os.path` / `os` / `shutil` primitives used by the
  source (`exists`, `lexists`, `islink`, `isdir`, `isfile`, `realpath`,
  `readlink`, `listdir`, `remove`, `rmtree`, `symlink`) are modelled over
  that map.  Symlink chains are followed with explicit fuel; intermediate
  path components are not themselves resolved through links (a documented
  simplification of the flat model).
* Python exceptions become an `Err` sum type returned through `Except` or
  threaded as `Option Err`; the distinction between `ValueError`, `OSError`,
  `IndexError` and `AttributeError` is preserved because the spec's claims
  distinguish configuration errors from crashes.
* `json.load` results are modelled by the `Json` inductive.
-/

/-- Models the Python exceptions that `myenv.py` can raise.  `valueError`
and `osError` are what the spec calls `ConfigError`; `indexError` and
`attributeError` model crashes from out-of-range indexing / missing
attributes; `fuelExhausted` models non-termination of unbounded recursion
(it can only be produced when the explicit fuel runs out). -/
inductive Err where
  | valueError (msg : String)
  | osError (msg : String)
  | indexError
  | attributeError
  | fuelExhausted
deriving DecidableEq, Repr

deriving instance DecidableEq for Except

/-- A JSON-shaped value, the result of `json.load` on a profile descriptor.
`num` stands in for every scalar that is not a string (numbers, booleans,
null): the source only ever distinguishes `str`, `list` and `dict` from
"anything else". -/
inductive Json where
  | str (s : String)
  | arr (l : List Json)
  | obj (kvs : List (String × Json))
  | num (n : Int)

/-- A filesystem node: regular file, directory, or symlink storing its raw
(unresolved) target string, as `os.readlink` would return it. -/
inductive Node where
  | file
  | dir
  | link (target : String)
deriving DecidableEq, Repr

/-- The filesystem: a flat association list from absolute path strings to
nodes.  Lookup takes the first matching entry. -/
abbrev FS := List (String × Node)

/- ## String primitives used by the source -/

/-- Models Python `s.startswith(pre)`. -/
def strStarts (s pre : String) : Bool := pre.data.isPrefixOf s.data

/-- Models Python `s.endswith(suf)`. -/
def strEnds (s suf : String) : Bool := suf.data.isSuffixOf s.data

/-- Models Python `s.lower()` (per-character lowering; the hostnames the
source compares are ASCII). -/
def strLower (s : String) : String := ⟨s.data.map Char.toLower⟩

/-- Models `fqdn[0:fqdn.find('.')]` with the `find == -1` fallback to the
whole string: the prefix of `s` up to (excluding) the first `'.'`. -/
def takeUntilDot (s : String) : String := ⟨s.data.takeWhile (fun c => c != '.')⟩

/-- Models `os.path.isabs` on POSIX: the path starts with a slash. -/
def isabs (p : String) : Bool := strStarts p "/"

/-- Models `os.path.join(a, b)` on POSIX for the two-argument calls the
source makes: an absolute second component replaces the first, otherwise
the components are glued with exactly one `/`. -/
def pjoin (a b : String) : String :=
  if isabs b then b
  else if strEnds a "/" then a ++ b
  else a ++ "/" ++ b

/-- Models `os.path.dirname` on POSIX: everything up to the last `/`, with
the trailing slash stripped unless the result consists only of slashes. -/
def dirname (p : String) : String :=
  let head : List Char := (p.data.reverse.dropWhile (fun c => c != '/')).reverse
  if head.all (fun c => c = '/') then ⟨head⟩
  else ⟨(head.reverse.dropWhile (fun c => c = '/')).reverse⟩

/-- Is `c` a character that can appear in a `$VAR` environment-variable
name (model of the POSIX rule `os.path.expandvars` uses)? -/
def isVarChar (c : Char) : Bool := c.isAlphanum || c = '_'

/-- Worker for `expandvars`, consuming at least one character per step;
`venv` is the ambient process environment (`os.environ`).  Unset variables
are left unchanged, exactly as `os.path.expandvars` leaves them. -/
def expandvarsGo (venv : List (String × String)) : Nat → List Char → List Char
  | 0, l => l
  | _ + 1, [] => []
  | fuel + 1, c :: rest =>
    if c = '$' then
      match rest with
      | '{' :: r2 =>
        let name := r2.takeWhile (fun d => d != '}')
        match r2.dropWhile (fun d => d != '}') with
        | '}' :: r4 =>
          match venv.lookup (⟨name⟩ : String) with
          | some v => v.data ++ expandvarsGo venv fuel r4
          | none => '$' :: '{' :: name ++ '}' :: expandvarsGo venv fuel r4
        | _ => '$' :: '{' :: expandvarsGo venv fuel r2
      | _ =>
        let name := rest.takeWhile isVarChar
        if name.isEmpty then '$' :: expandvarsGo venv fuel rest
        else
          match venv.lookup (⟨name⟩ : String) with
          | some v => v.data ++ expandvarsGo venv fuel (rest.drop name.length)
          | none => '$' :: name ++ expandvarsGo venv fuel (rest.drop name.length)
    else c :: expandvarsGo venv fuel rest

/-- Models `os.path.expandvars` for POSIX `$VAR` and `${VAR}` references. -/
def expandvars (venv : List (String × String)) (s : String) : String :=
  ⟨expandvarsGo venv s.data.length s.data⟩

/-- Models `os.path.expanduser`: a leading `~` (bare or followed by `/`) is
replaced by the home directory.  (`~user` forms are not modelled; the
source never writes them.) -/
def expanduser (home : String) (s : String) : String :=
  if s = "~" then home
  else if strStarts s "~/" then home ++ ⟨s.data.drop 1⟩
  else s

/-- Source `expand(s)`: `os.path.expanduser(os.path.expandvars(s))`. -/
def expand (venv : List (String × String)) (home : String) (s : String) : String :=
  expanduser home (expandvars venv s)

/- ## Filesystem primitives -/

/-- First-match lookup of a path in the filesystem map. -/
def fsLookup (fs : FS) (p : String) : Option Node := fs.lookup p

/-- Models `os.remove` / single-entry deletion: drops every entry for the
exact path `p`. -/
def fsRemove (fs : FS) (p : String) : FS := fs.filter (fun e => e.1 ≠ p)

/-- Creates or replaces the entry at `p`. -/
def fsSet (fs : FS) (p : String) (n : Node) : FS := (p, n) :: fsRemove fs p

/-- Models `shutil.rmtree p`: removes the entry at `p` and every entry
strictly below it. -/
def rmtree (fs : FS) (p : String) : FS :=
  fs.filter (fun e => e.1 ≠ p ∧ ¬ strStarts e.1 (p ++ "/"))

/-- Models `os.path.lexists`: the path has an entry, symlinks not followed. -/
def lexists (fs : FS) (p : String) : Bool := (fsLookup fs p).isSome

/-- Models `os.path.islink`. -/
def islinkB (fs : FS) (p : String) : Bool :=
  match fsLookup fs p with
  | some (.link _) => true
  | _ => false

/-- Resolves a raw link-target string against the directory of the link
itself, as the kernel does for relative symlink targets. -/
def resolveLink (linkPath target : String) : String :=
  if isabs target then target else pjoin (dirname linkPath) target

/-- Models `os.path.exists`: follows symlink chains (with fuel); a broken
or looping chain yields `false`, as in Python. -/
def fsExists (fs : FS) : Nat → String → Bool
  | 0, _ => false
  | fuel + 1, p =>
    match fsLookup fs p with
    | some (.link t) => fsExists fs fuel (resolveLink p t)
    | some _ => true
    | none => false

/-- Models `os.path.isdir`: follows symlink chains to a directory. -/
def isdirF (fs : FS) : Nat → String → Bool
  | 0, _ => false
  | fuel + 1, p =>
    match fsLookup fs p with
    | some (.link t) => isdirF fs fuel (resolveLink p t)
    | some .dir => true
    | _ => false

/-- Models `os.path.isfile`: follows symlink chains to a regular file. -/
def isfileF (fs : FS) : Nat → String → Bool
  | 0, _ => false
  | fuel + 1, p =>
    match fsLookup fs p with
    | some (.link t) => isfileF fs fuel (resolveLink p t)
    | some .file => true
    | _ => false

/-- Models `os.path.realpath` at the granularity of the flat model: the
final path is followed through symlink chains (with fuel); a path that is
not a link (including a missing path) resolves to itself, and when the fuel
runs out the partially resolved path is returned, as Python's non-strict
`realpath` returns a path even on symlink loops. -/
def realpath (fs : FS) : Nat → String → String
  | 0, p => p
  | fuel + 1, p =>
    match fsLookup fs p with
    | some (.link t) => realpath fs fuel (resolveLink p t)
    | _ => p

/-- Models `os.listdir dir`: the names (single path components) of the
entries directly inside `dir`. -/
def listdir (fs : FS) (dir : String) : List String :=
  fs.filterMap (fun e =>
    let pre := dir ++ "/"
    if strStarts e.1 pre then
      let rest := e.1.data.drop pre.data.length
      if rest ≠ [] ∧ ¬ rest.contains '/' then some (⟨rest⟩ : String) else none
    else none)

/-- Association-list insertion with Python `dict` semantics: an existing key
keeps its position and gets the new value, a new key is appended. -/
def alSet {α : Type} (al : List (String × α)) (k : String) (v : α) : List (String × α) :=
  if (al.lookup k).isSome then
    al.map (fun kv => if kv.1 = k then (k, v) else kv)
  else al ++ [(k, v)]

/- ## Selector engine (classes Selector .. NotSelector, create_selectors) -/

/-- A selector node, tagged by kind, holding the raw JSON configuration it
was constructed with — exactly as each Python `Selector` subclass stores
`self.config` and re-interprets it inside `is_active`.  `never` models
`NeverSelector` (its unused `{}` config is dropped). -/
inductive Sel where
  | host (cfg : Json)
  | dir (cfg : Json)
  | file (cfg : Json)
  | and (cfg : Json)
  | or (cfg : Json)
  | not (cfg : Json)
  | never

/-- One step of `create_selectors`'s loop body: maps a selector kind name
to the corresponding node, `none` for an unknown kind.  Mirrors
`SELECTOR_MAPPINGS` (which has entries for `host`, `dir`, `file`, `and`,
`not`, `or` — and, despite the module docstring, none for `cmd`). -/
def selectorMapping (k : String) (v : Json) : Option Sel :=
  if k = "host" then some (.host v)
  else if k = "dir" then some (.dir v)
  else if k = "file" then some (.file v)
  else if k = "and" then some (.and v)
  else if k = "not" then some (.not v)
  else if k = "or" then some (.or v)
  else none

/-- Worker for `create_selectors`: the `for (k, v) in json.items()` loop. -/
def createSelectorsGo : List (String × Json) → Except Err (List Sel)
  | [] => .ok []
  | (k, v) :: rest =>
    match selectorMapping k v with
    | none => .error (.valueError ("unknown selector: " ++ k))
    | some s => do
      let tail ← createSelectorsGo rest
      .ok (s :: tail)

/-- Source `create_selectors(json)`: iterates the items of the JSON object
and instantiates one selector per key; an unknown key raises `ValueError`.
Calling it on a non-object crashes (`.items()` on a non-dict), modelled as
`attributeError`. -/
def create_selectors : Json → Except Err (List Sel)
  | .obj kvs => createSelectorsGo kvs
  | _ => .error .attributeError

/-- The ambient evaluation context a selector reads: the machine's FQDN
(`socket.getfqdn()`, before lowering), the sets of paths for which
`os.path.isdir` / `os.path.isfile` hold (checked after `expand`), the
process environment for `$VAR` expansion, and the home directory for `~`
expansion. -/
structure Ctx where
  fqdn : String
  dirs : List String
  files : List String
  venv : List (String × String)
  home : String

/-- The inner matching loop of `HostSelector.is_active` over the configured
host names: `*` matches anything, otherwise exact match against the
(lowered) FQDN or the short hostname, or domain-suffix match for names
starting with `.`.  A non-string element falls through the equality tests
and crashes on `host.startswith` (`attributeError`). -/
def hostLoop (fqdn hostname : String) : List Json → Except Err Bool
  | [] => .ok false
  | .str h :: rest =>
    if h = "*" then .ok true
    else if h = fqdn then .ok true
    else if h = hostname then .ok true
    else if strStarts h "." && strEnds fqdn h then .ok true
    else hostLoop fqdn hostname rest
  | _ :: _ => .error .attributeError

/-- `HostSelector.is_active`: accepts a string or an array as config,
lowers the FQDN, truncates it at the first `.` for the short hostname, and
runs the matching loop. -/
def hostIsActive (ctx : Ctx) (cfg : Json) : Except Err Bool :=
  let fqdn := strLower ctx.fqdn
  let hostname := takeUntilDot fqdn
  match cfg with
  | .str s => hostLoop fqdn hostname [.str s]
  | .arr l => hostLoop fqdn hostname l
  | _ => .error (.valueError "invalid value for host selector; you need to specify a string, or an array")

/-- `DirSelector.is_active`: config must be a string; expand it and test
directory existence. -/
def dirIsActive (ctx : Ctx) (cfg : Json) : Except Err Bool :=
  match cfg with
  | .str s => .ok (ctx.dirs.contains (expand ctx.venv ctx.home s))
  | _ => .error (.valueError "invalid value for dir selector; you need to specify a string")

/-- `FileSelector.is_active`: config must be a string; expand it and test
file existence. -/
def fileIsActive (ctx : Ctx) (cfg : Json) : Except Err Bool :=
  match cfg with
  | .str s => .ok (ctx.files.contains (expand ctx.venv ctx.home s))
  | _ => .error (.valueError "invalid value for dir selector; you need to specify a string")

/-- The `for selector in subselectors` loop of `AndSelector.is_active`,
abstracted over the child evaluator: the first inactive child stops the
scan with `false`; an empty child list yields `true`. -/
def andLoop (f : Sel → Except Err Bool) : List Sel → Except Err Bool
  | [] => .ok true
  | s :: rest => do
    let b ← f s
    if b then andLoop f rest else .ok false

/-- The `for selector in subselectors` loop of `OrSelector.is_active`:
the first active child stops the scan with `true`; an empty child list
yields `false`. -/
def orLoop (f : Sel → Except Err Bool) : List Sel → Except Err Bool
  | [] => .ok false
  | s :: rest => do
    let b ← f s
    if b then .ok true else orLoop f rest

/-- Selector evaluation, `is_active` of each `Selector` subclass.  The
composite kinds re-run `create_selectors` on their stored config at
evaluation time, exactly as the Python does; the explicit fuel bounds that
recursion (Python recursion is unbounded but finite on finite JSON). -/
def isActive (ctx : Ctx) : Nat → Sel → Except Err Bool
  | _, .never => .ok false
  | _, .host cfg => hostIsActive ctx cfg
  | _, .dir cfg => dirIsActive ctx cfg
  | _, .file cfg => fileIsActive ctx cfg
  | 0, .and _ => .error .fuelExhausted
  | 0, .or _ => .error .fuelExhausted
  | 0, .not _ => .error .fuelExhausted
  | fuel + 1, .and cfg =>
    match cfg with
    | .obj kvs => do
      let subs ← createSelectorsGo kvs
      andLoop (isActive ctx fuel) subs
    | _ => .error (.valueError "invalid value for and selector; you need to specify a dict")
  | fuel + 1, .or cfg =>
    match cfg with
    | .obj kvs => do
      let subs ← createSelectorsGo kvs
      orLoop (isActive ctx fuel) subs
    | _ => .error (.valueError "invalid value for or selector; you need to specify a dict")
  | fuel + 1, .not cfg =>
    match cfg with
    | .obj kvs =>
      if kvs.length > 1 then
        .error (.valueError "invalid value for not selector; you can only specify one selector; use and or or to specify several")
      else
        match createSelectorsGo kvs with
        | .error e => .error e
        | .ok [] => .error .indexError
        | .ok (s :: _) => do
          let b ← isActive ctx fuel s
          .ok (!b)
    | _ => .error (.valueError "invalid value for not selector; you need to specify a dict")

/- ## Profile model (class RemoteProfile, select_profiles) -/

/-- Convenience lookup in a JSON object, `self.json.get(key, default=None)`. -/
def jGet (j : Json) (key : String) : Option Json :=
  match j with
  | .obj kvs => kvs.lookup key
  | _ => none

/-- Model of a loaded `RemoteProfile`: its directory basename and path, the
`safeToWrite` flag (false when the JSON failed to parse), the parsed
document (absent exactly when parsing failed, as the Python instance then
never assigns `self.json`), and the selector list (absent when the document
has no `selectors` key). -/
structure RProfile where
  name : String
  path : String
  safeToWrite : Bool
  json : Option Json
  selector : Option (List Sel)

/-- The `RProfile` produced by `RemoteProfile.loadJson` when the descriptor
is not valid JSON: `safeToWrite` cleared and a single `NeverSelector`. -/
def mkFailedProfile (name path : String) : RProfile :=
  ⟨name, path, false, none, some [.never]⟩

/-- `RemoteProfile.loadJson`: `parsed` is the outcome of `json.load` on the
descriptor (`none` = `JSONDecodeError`).  On failure the profile is marked
unsafe to write and given a `NeverSelector` (and a warning is printed); on
success the `selectors` key, when present, is compiled by
`create_selectors` — whose `ValueError` is NOT caught and so propagates. -/
def loadJson (name path : String) (parsed : Option Json) : Except Err RProfile :=
  match parsed with
  | none => .ok (mkFailedProfile name path)
  | some j =>
    match jGet j "selectors" with
    | none => .ok ⟨name, path, true, some j, none⟩
    | some sj => do
      let sels ← create_selectors sj
      .ok ⟨name, path, true, some j, some sels⟩

/-- `RemoteProfile.saveJson`: returns the document written back to
`profile.json`, or `none` when nothing is written — which happens exactly
when `safeToWrite` is false (only a warning is printed then). -/
def saveJson (p : RProfile) : Option Json :=
  if ¬ p.safeToWrite then none else p.json

/-- The profile-discovery loop at script start: each directory entry with a
`profile.json` is loaded in turn; a parse failure only disables that one
profile (the loop continues), but an uncaught selector-compilation error
aborts the whole run. -/
def loadAll : List (String × String × Option Json) → Except Err (List RProfile)
  | [] => .ok []
  | (name, path, parsed) :: rest => do
    let p ← loadJson name path parsed
    let ps ← loadAll rest
    .ok (p :: ps)

/-- The `for selector in profile.selector` loop of `select_profiles`:
the profile is added only if every selector is active (`add_it` stays
true); the scan stops at the first inactive selector. -/
def allSelectorsActive (ctx : Ctx) (fuel : Nat) : List Sel → Except Err Bool
  | [] => .ok true
  | s :: rest => do
    let b ← isActive ctx fuel s
    if b then allSelectorsActive ctx fuel rest else .ok false

/-- Is the profile active?  No selector means unconditionally active,
otherwise all top-level selectors must be active. -/
def profileIsActive (ctx : Ctx) (fuel : Nat) (p : RProfile) : Except Err Bool :=
  match p.selector with
  | none => .ok true
  | some sels => allSelectorsActive ctx fuel sels

/-- Source `select_profiles()`: keeps, in discovery order, the profiles
whose selectors all evaluate active. -/
def select_profiles (ctx : Ctx) (fuel : Nat) : List RProfile → Except Err (List RProfile)
  | [] => .ok []
  | p :: rest => do
    let b ← profileIsActive ctx fuel p
    let tail ← select_profiles ctx fuel rest
    if b then .ok (p :: tail) else .ok tail

/- ## SymlinksPlugin -/

/-- The slice of a loaded profile that the symlinks/copies plugins read:
its name, its directory, and the `symlinks` / `copies` objects of its
document (`profile.json.get('symlinks', {})`, string keys to string
values). -/
structure MProfile where
  name : String
  path : String
  symlinks : List (String × String)
  copies : List (String × String)
deriving DecidableEq, Repr

/-- One iteration of the `get_symlinks` loop: expand the key, make it
absolute against home, join the value under the profile directory; fail if
the source does not exist, if the (symlink-resolved) target is the home
directory itself, or if an absolute target lies outside home; otherwise
record `target -> source` in the result dict. -/
def getSymlinksStep (venv : List (String × String)) (home : String) (fl : Nat)
    (fs : FS) (p : MProfile) (acc : List (String × String)) (kv : String × String) :
    Except Err (List (String × String)) :=
  let k := kv.1
  let v := kv.2
  let kk0 := expand venv home k
  let kk := if isabs kk0 then kk0 else pjoin home kk0
  let vv := pjoin p.path (expand venv home v)
  if ¬ fsExists fs fl vv then
    .error (.osError (v ++ " is defined in profile " ++ p.name ++ " but does not exist"))
  else if realpath fs fl kk = home then
    .error (.osError (kk ++ " points to your entire home directory (defined in profile " ++ p.name ++ ")"))
  else if ¬ isabs kk then
    .ok (alSet acc kk vv)
  else if ¬ strStarts kk home then
    .error (.osError ("symlink " ++ k ++ " in profile " ++ p.name ++ " is not inside HOME"))
  else
    .ok (alSet acc kk vv)

/-- The `for k, v in symlinks.items()` loop of `get_symlinks`, carried out
over the remaining items with the result dict accumulated in `acc`. -/
def getSymlinksGo (venv : List (String × String)) (home : String) (fl : Nat)
    (fs : FS) (p : MProfile) (acc : List (String × String)) :
    List (String × String) → Except Err (List (String × String))
  | [] => .ok acc
  | kv :: rest => do
    let acc2 ← getSymlinksStep venv home fl fs p acc kv
    getSymlinksGo venv home fl fs p acc2 rest

/-- `SymlinksPlugin.get_symlinks`: the desired `target -> source` map for
one profile, all paths absolute, validated as in the source. -/
def get_symlinks (venv : List (String × String)) (home : String) (fl : Nat)
    (fs : FS) (p : MProfile) : Except Err (List (String × String)) :=
  getSymlinksGo venv home fl fs p [] p.symlinks

/-- The result dict `get_symlinks` builds, computed without the filesystem
checks: the map only depends on the profile's configuration, the
environment and home (used to state that a successful `get_symlinks` is
filesystem-independent). -/
def symlinkMapPure (venv : List (String × String)) (home : String)
    (p : MProfile) (acc : List (String × String)) :
    List (String × String) → List (String × String)
  | [] => acc
  | kv :: rest =>
    let kk0 := expand venv home kv.1
    let kk := if isabs kk0 then kk0 else pjoin home kk0
    let vv := pjoin p.path (expand venv home kv.2)
    symlinkMapPure venv home p (alSet acc kk vv) rest

/-- One iteration of the destroy loop of `installProfile`: an existing
target that is a symlink is unlinked; a real directory is `rmtree`d only if
the source is also a directory; a real file is removed only if the source
is also a file; mismatches and unknown node kinds raise `OSError`. -/
def destroyEntry (fl : Nat) (p : MProfile) (fs : FS) (tv : String × String) :
    Except Err FS :=
  let target := tv.1
  let source := tv.2
  if lexists fs target then
    if islinkB fs target then .ok (fsRemove fs target)
    else if isdirF fs fl target then
      if ¬ isdirF fs fl source then
        .error (.osError (target ++ " is a directory but source file in profile " ++ p.name ++ " is not"))
      else .ok (rmtree fs target)
    else if isfileF fs fl target then
      if ¬ isfileF fs fl source then
        .error (.osError (target ++ " is a directory but source file in profile " ++ p.name ++ " is not"))
      else .ok (fsRemove fs target)
    else .error (.osError ("unknown filetype: " ++ target))
  else .ok fs

/-- The destroy loop over the whole desired map, threading the filesystem
and stopping at the first (fatal) error with the mutations made so far. -/
def destroyAll (fl : Nat) (p : MProfile) (fs : FS) :
    List (String × String) → FS × Option Err
  | [] => (fs, none)
  | tv :: rest =>
    match destroyEntry fl p fs tv with
    | .error e => (fs, some e)
    | .ok fs2 => destroyAll fl p fs2 rest

/-- One iteration of the create loop: `os.symlink(source, join(home,
target))`.  The missing-source case only warns and still creates the
dangling link; a failing `os.symlink` (existing destination, or missing
parent directory) is caught, reported and skipped — creation failures are
per-entry and non-fatal. -/
def createEntry (home : String) (fl : Nat) (fs : FS) (tv : String × String) : FS :=
  let dest := pjoin home tv.1
  if lexists fs dest then fs
  else if ¬ isdirF fs fl (dirname dest) then fs
  else fsSet fs dest (.link tv.2)

/-- The create loop over the whole desired map. -/
def createAll (home : String) (fl : Nat) (fs : FS) :
    List (String × String) → FS
  | [] => fs
  | tv :: rest => createAll home fl (createEntry home fl fs tv) rest

/-- `SymlinksPlugin.installProfile`: compute the desired map (aborting with
the filesystem untouched if that fails), run the destroy phase, then the
create phase. -/
def installProfile (venv : List (String × String)) (home : String) (fl : Nat)
    (fs : FS) (p : MProfile) : FS × Option Err :=
  match get_symlinks venv home fl fs p with
  | .error e => (fs, some e)
  | .ok m =>
    match destroyAll fl p fs m with
    | (fs2, some e) => (fs2, some e)
    | (fs2, none) => (createAll home fl fs2 m, none)

/-- `SymlinksPlugin.install`: the profiles in activation order, each
installed in turn; an uncaught error aborts the remaining profiles. -/
def installAll (venv : List (String × String)) (home : String) (fl : Nat) :
    FS → List MProfile → FS × Option Err
  | fs, [] => (fs, none)
  | fs, p :: rest =>
    match installProfile venv home fl fs p with
    | (fs2, none) => installAll venv home fl fs2 rest
    | (fs2, some e) => (fs2, some e)

/-- `SymlinksPlugin.find_symlinks`: the names directly inside `directory`
that are symlinks whose RAW `os.readlink` value starts with the string
`targetdir` (a plain `str.startswith` test — the link target is not
resolved and no separator is required after the prefix). -/
def find_symlinks (fs : FS) (directory targetdir : String) : List String :=
  (listdir fs directory).filter (fun f =>
    let filepath := pjoin directory f
    match fsLookup fs filepath with
    | some (.link t) => strStarts t targetdir
    | _ => false)

/-- The `for f in self.find_symlinks(home, profile_dir)` removal loop of
`SymlinksPlugin.beforeInstall`. -/
def removeFound (home : String) (fs : FS) : List String → FS
  | [] => fs
  | f :: rest =>
    let sp := pjoin home f
    removeFound home (if lexists fs sp then fsRemove fs sp else fs) rest

/-- `SymlinksPlugin.beforeInstall`: the pre-pass that removes every symlink
directly in the home directory pointing (by raw string prefix) into the
profile-storage directory. -/
def beforeInstall (home pdir : String) (fs : FS) : FS :=
  removeFound home fs (find_symlinks fs home pdir)

/-- The symlink-reconciliation part of `myenv install`:
`runPluginBeforeInstall()` (of which only `SymlinksPlugin.beforeInstall`
touches the filesystem) followed by `runPluginInstall(profiles)` (of which
only `SymlinksPlugin.install` does; `CopiesPlugin` never overrides
`install`). -/
def runSymlinkReconcile (venv : List (String × String)) (home pdir : String)
    (fl : Nat) (fs : FS) (ps : List MProfile) : FS × Option Err :=
  installAll venv home fl (beforeInstall home pdir fs) ps

/- ## CopiesPlugin -/

/-- `CopiesPlugin.get_copies`: for each configured `(k, v)` pair the result
dict maps `v` (used verbatim, later joined under home by `do_copies`) to
`join(profile.path, k)`.  No expansion, no existence or home-directory
validation is performed. -/
def get_copies (p : MProfile) : List (String × String) :=
  p.copies.foldl (fun acc kv => alSet acc kv.2 (pjoin p.path kv.1)) []

/-- Modelled from the spec (for refinement comparison, not from the
source): what `desiredCopies` would be if, as the spec sentence says, it
used "the same resolution rules as symlinks over the same-shaped map":
each configured key expanded and made absolute against home as the target,
each configured value joined under the profile directory as the source,
without the symlink-only validation. -/
def desiredCopiesSpec (venv : List (String × String)) (home : String)
    (p : MProfile) : List (String × String) :=
  p.copies.foldl (fun acc kv =>
    let kk0 := expand venv home kv.1
    let kk := if isabs kk0 then kk0 else pjoin home kk0
    alSet acc kk (pjoin p.path (expand venv home kv.2))) []

/- ## EnvPlugin -/

/-- The value a profile's `env` object associates with a variable name:
a string, a list (of path strings, as the source assumes when it calls
`expand` on each element), or any other JSON type (which the source rejects
with `ValueError`). -/
inductive EnvVal where
  | vstr (s : String)
  | vlist (l : List String)
  | vother
deriving DecidableEq, Repr

/-- The slice of a loaded profile that `EnvPlugin` reads. -/
structure EProfile where
  name : String
  path : String
  env : List (String × EnvVal)
deriving DecidableEq, Repr

/-- An accumulated value in `EnvPlugin.generateDotProfile`'s `ret` dict:
either a scalar string (last writer wins) or a list of resolved paths
(appended across profiles). -/
inductive RetVal where
  | rstr (s : String)
  | rlist (l : List String)
deriving DecidableEq, Repr

/-- Resolution of one list element: expand it, and make it absolute
against the profile directory when it is relative. -/
def resolveEnvPath (venv : List (String × String)) (home ppath : String)
    (vv : String) : String :=
  let e := expand venv home vv
  if isabs e then e else pjoin ppath e

/-- The body of the `for k, v in env.items()` loop: a string value
overwrites, failing if the variable was previously recorded as a list; a
list value is resolved element-wise and appended, failing if the variable
was previously recorded as a string; any other type fails outright. -/
def envStep (venv : List (String × String)) (home : String) (p : EProfile)
    (ret : List (String × RetVal)) (kv : String × EnvVal) :
    Except Err (List (String × RetVal)) :=
  match kv.2 with
  | .vstr v =>
    match ret.lookup kv.1 with
    | some (.rlist _) =>
      .error (.valueError ("profile " ++ p.name ++ " specified environment variable " ++ kv.1 ++ " as a string but it should be a list"))
    | _ => .ok (alSet ret kv.1 (.rstr v))
  | .vlist l =>
    let newV := l.map (resolveEnvPath venv home p.path)
    match ret.lookup kv.1 with
    | some (.rstr _) =>
      .error (.valueError ("profile " ++ p.name ++ " specified environment variable " ++ kv.1 ++ " as a list but it should be a string"))
    | some (.rlist old) => .ok (alSet ret kv.1 (.rlist (old ++ newV)))
    | none => .ok (ret ++ [(kv.1, .rlist newV)])
  | .vother =>
    .error (.valueError ("value for environment variable " ++ kv.1 ++ " is invalid; should be a string or list"))

/-- The loop over one profile's `env` items. -/
def envProfileGo (venv : List (String × String)) (home : String) (p : EProfile)
    (ret : List (String × RetVal)) :
    List (String × EnvVal) → Except Err (List (String × RetVal))
  | [] => .ok ret
  | kv :: rest => do
    let ret2 ← envStep venv home p ret kv
    envProfileGo venv home p ret2 rest

/-- The outer loop over the active profiles, accumulating `ret`. -/
def envAllGo (venv : List (String × String)) (home : String)
    (ret : List (String × RetVal)) :
    List EProfile → Except Err (List (String × RetVal))
  | [] => .ok ret
  | p :: rest => do
    let ret2 ← envProfileGo venv home p ret p.env
    envAllGo venv home ret2 rest

/-- Join path fragments with `:` (the POSIX path separator used by the
source's `':'.join(v)`). -/
def joinColon : List String → String
  | [] => ""
  | [x] => x
  | x :: rest => x ++ ":" ++ joinColon rest

/-- The rendering loop: one `export` statement per accumulated variable,
in insertion order; a list-valued variable already present in the ambient
environment gets that ambient value prepended as a single segment. -/
def renderExports (venv : List (String × String)) :
    List (String × RetVal) → List String :=
  List.map (fun kv =>
    match kv.2 with
    | .rlist l =>
      match venv.lookup kv.1 with
      | some e => "export " ++ kv.1 ++ "=" ++ e ++ ":" ++ joinColon l
      | none => "export " ++ kv.1 ++ "=" ++ joinColon l
    | .rstr s => "export " ++ kv.1 ++ "=" ++ s)

/-- `EnvPlugin.generateDotProfile`: aggregate all active profiles' `env`
maps (failing on any representation conflict), then render the `export`
statements.  On failure no statements at all are produced. -/
def generateDotProfile (venv : List (String × String)) (home : String)
    (ps : List EProfile) : Except Err (List String) := do
  let ret ← envAllGo venv home [] ps
  .ok (renderExports venv ret)

/- ## Derived definitions used in theorem statements -/

/-- The per-name matching rule of `HostSelector.is_active`, read off the
source's comparison chain: wildcard, exact FQDN, exact short hostname, or
leading-dot domain suffix. -/
def hostNameMatches (fqdn hostname h : String) : Bool :=
  h = "*" || h = fqdn || h = hostname || (strStarts h "." && strEnds fqdn h)

/-- Is `p` the path `d` itself or a path beneath it (sharing the `/`
separator)?  Used to state what "resolves to a path under the
profile-storage directory" means. -/
def pathUnder (d p : String) : Bool := p = d || strStarts p (d ++ "/")

/-- Is `q` a path directly inside the directory `home`: `home ++ "/" ++ f`
for a nonempty component `f` containing no separator (what `os.listdir`
of `home` would surface)? -/
def isDirectChild (home q : String) : Bool :=
  strStarts q (home ++ "/") &&
    (let rest := q.data.drop (home ++ "/").data.length
     rest ≠ [] && ¬ rest.contains '/')

/-- The source that "wins" for target `q` after all profiles are installed
in order: the value recorded for `q` in the desired map of the last profile
that maps `q` (maps are filesystem-independent, see `symlinkMapPure`). -/
def lastTargetVal (venv : List (String × String)) (home : String)
    (ps : List MProfile) (q : String) : Option String :=
  match ps with
  | [] => none
  | p :: rest =>
    match lastTargetVal venv home rest q with
    | some s => some s
    | none => (symlinkMapPure venv home p [] p.symlinks).lookup q

/-- The removal condition `beforeInstall` effectively applies to a path
`q`: `q` is directly in the home directory and currently a symlink whose
raw target string has the profile-storage directory as a string prefix. -/
def prepassRemoves (home pdir : String) (fs : FS) (q : String) : Bool :=
  isDirectChild home q &&
    (match fsLookup fs q with
     | some (.link t) => strStarts t pdir
     | _ => false)

/-- The representation recorded for a variable in `EnvPlugin`'s
accumulator: `none` if absent, `some false` once recorded as a scalar
string, `some true` once recorded as a list. -/
def retKind (ret : List (String × RetVal)) (k : String) : Option Bool :=
  match ret.lookup k with
  | none => none
  | some (.rstr _) => some false
  | some (.rlist _) => some true

/- ## Basic lemmas about the string and map primitives -/

theorem strData_inj {a b : String} (h : a.data = b.data) : a = b := by
  cases a; cases b; simp_all

theorem strData_append (a b : String) : (a ++ b).data = a.data ++ b.data := by
  cases a; cases b; rfl

theorem lookup_mem {α : Type} {l : List (String × α)} {k : String} {v : α}
    (h : l.lookup k = some v) : (k, v) ∈ l := by
  induction l with
  | nil => simp [List.lookup] at h
  | cons e rest ih =>
    obtain ⟨k1, v1⟩ := e
    rw [List.lookup] at h
    by_cases hk : k == k1
    · simp only [hk, if_pos] at h
      simp only [beq_iff_eq] at hk
      subst hk
      simp at h
      subst h
      exact List.mem_cons_self _ _
    · simp only [hk] at h
      simp at hk
      exact List.mem_cons_of_mem _ (ih (by simpa [hk] using h))

theorem mem_lookup_isSome {α : Type} {l : List (String × α)} {k : String} {v : α}
    (h : (k, v) ∈ l) : (l.lookup k).isSome := by
  induction l with
  | nil => simp at h
  | cons e rest ih =>
    obtain ⟨k1, v1⟩ := e
    rcases List.mem_cons.mp h with h1 | h1
    · obtain ⟨rfl, rfl⟩ := Prod.mk.injEq .. ▸ h1
      simp [List.lookup]
    · rw [List.lookup]
      by_cases hk : k == k1
      · simp [hk]
      · simpa [hk] using ih h1

theorem lookup_cons {α : Type} (k1 : String) (v1 : α) (rest : List (String × α)) (k : String) :
    ((k1, v1) :: rest).lookup k = if k = k1 then some v1 else rest.lookup k := by
  rw [List.lookup]
  by_cases h : k = k1
  · simp [h]
  · have hb : (k == k1) = false := beq_eq_false_iff_ne.mpr h
    simp [hb, h]

theorem lookup_map_update_other {α : Type} (al : List (String × α)) (k k' : String) (v : α)
    (hne : k' ≠ k) :
    (al.map (fun kv => if kv.1 = k then (k, v) else kv)).lookup k' = al.lookup k' := by
  induction al with
  | nil => simp
  | cons e rest ih =>
    obtain ⟨k1, v1⟩ := e
    by_cases h1 : k1 = k
    · subst h1
      simp only [List.map_cons, if_pos rfl]
      rw [lookup_cons, lookup_cons]
      simp [hne, ih]
    · simp only [List.map_cons, if_neg h1]
      rw [lookup_cons, lookup_cons]
      by_cases h2 : k' = k1 <;> simp [h2, ih]

theorem lookup_map_update_self {α : Type} (al : List (String × α)) (k : String) (v : α)
    (h : (al.lookup k).isSome) :
    (al.map (fun kv => if kv.1 = k then (k, v) else kv)).lookup k = some v := by
  induction al with
  | nil => simp [List.lookup] at h
  | cons e rest ih =>
    obtain ⟨k1, v1⟩ := e
    by_cases h1 : k1 = k
    · subst h1
      simp only [List.map_cons, if_pos rfl]
      rw [lookup_cons]
      simp
    · simp only [List.map_cons, if_neg h1]
      rw [lookup_cons] at h ⊢
      have : ¬ k = k1 := fun hh => h1 hh.symm
      simp only [if_neg this] at h ⊢
      exact ih h

theorem lookup_append_single_self {α : Type} (al : List (String × α)) (k : String) (v : α)
    (h : ¬ (al.lookup k).isSome) :
    (al ++ [(k, v)]).lookup k = some v := by
  induction al with
  | nil => simp [List.lookup]
  | cons e rest ih =>
    obtain ⟨k1, v1⟩ := e
    rw [List.cons_append, lookup_cons]
    rw [lookup_cons] at h
    by_cases h1 : k = k1
    · simp [h1] at h
    · simp only [if_neg h1] at h ⊢
      exact ih h

theorem lookup_append_single_other {α : Type} (al : List (String × α)) (k k' : String) (v : α)
    (hne : k' ≠ k) :
    (al ++ [(k, v)]).lookup k' = al.lookup k' := by
  induction al with
  | nil =>
    have hb : (k' == k) = false := beq_eq_false_iff_ne.mpr hne
    simp [List.lookup, hb]
  | cons e rest ih =>
    obtain ⟨k1, v1⟩ := e
    rw [List.cons_append, lookup_cons, lookup_cons]
    by_cases h1 : k' = k1 <;> simp [h1, ih]

theorem alSet_lookup_self {α : Type} (al : List (String × α)) (k : String) (v : α) :
    (alSet al k v).lookup k = some v := by
  unfold alSet
  by_cases h : (al.lookup k).isSome
  · simp only [h, if_pos]
    exact lookup_map_update_self al k v h
  · simp only [h, if_neg, Bool.false_eq_true, not_false_iff]
    exact lookup_append_single_self al k v h

theorem alSet_lookup_other {α : Type} (al : List (String × α)) (k k' : String) (v : α)
    (hne : k' ≠ k) : (alSet al k v).lookup k' = al.lookup k' := by
  unfold alSet
  by_cases h : (al.lookup k).isSome
  · simp only [h, if_pos]
    exact lookup_map_update_other al k k' v hne
  · simp only [h, if_neg, Bool.false_eq_true, not_false_iff]
    exact lookup_append_single_other al k k' v hne

theorem alSet_keys_nodup {α : Type} (al : List (String × α)) (k : String) (v : α)
    (h : (al.map Prod.fst).Nodup) : ((alSet al k v).map Prod.fst).Nodup := by
  unfold alSet
  by_cases hs : (al.lookup k).isSome
  · simp only [hs, if_pos]
    have : (al.map (fun kv => if kv.1 = k then (k, v) else kv)).map Prod.fst = al.map Prod.fst := by
      rw [List.map_map]
      apply List.map_congr_left
      intro kv _
      by_cases h1 : kv.1 = k <;> simp [h1]
    rw [this]
    exact h
  · simp only [hs, if_neg, Bool.false_eq_true, not_false_iff]
    rw [List.map_append]
    simp only [List.map_cons, List.map_nil]
    rw [List.nodup_append]
    refine ⟨h, List.nodup_singleton _, ?_⟩
    intro a ha
    simp only [List.mem_singleton]
    intro hb
    subst hb
    obtain ⟨⟨k1, v1⟩, hm, hk⟩ := List.mem_map.mp ha
    simp only at hk
    subst hk
    exact absurd (mem_lookup_isSome hm) hs

theorem alSet_mem {α : Type} {al : List (String × α)} {k : String} {v : α} {e : String × α}
    (h : e ∈ alSet al k v) : e ∈ al ∨ e = (k, v) := by
  unfold alSet at h
  by_cases hs : (al.lookup k).isSome
  · simp only [hs, if_pos] at h
    obtain ⟨kv, hm, hk⟩ := List.mem_map.mp h
    by_cases h1 : kv.1 = k
    · simp only [if_pos h1] at hk
      right; exact hk.symm
    · simp only [if_neg h1] at hk
      left; exact hk ▸ hm
  · simp only [hs, if_neg, Bool.false_eq_true, not_false_iff] at h
    rcases List.mem_append.mp h with h1 | h1
    · left; exact h1
    · right; simpa using h1

/- ## Filesystem operation lemmas -/

theorem lookup_filter_key {α : Type} (fs : List (String × α)) (P : String → Bool) (q : String) :
    ((fs.filter (fun e => P e.1)).lookup q) = if P q then fs.lookup q else none := by
  induction fs with
  | nil =>
    simp only [List.filter_nil]
    cases h : P q <;> simp [List.lookup]
  | cons e rest ih =>
    obtain ⟨k1, v1⟩ := e
    simp only [List.filter_cons]
    by_cases hp : P k1
    · simp only [hp, if_pos]
      rw [lookup_cons, lookup_cons]
      by_cases hq : q = k1
      · subst hq
        simp [hp]
      · simp only [if_neg hq]
        exact ih
    · simp only [hp, Bool.false_eq_true, if_neg, not_false_iff]
      rw [lookup_cons]
      by_cases hq : q = k1
      · subst hq
        simp only [hp, Bool.false_eq_true, if_neg, not_false_iff]
        rw [ih]
        simp [hp]
      · simp only [if_neg hq]
        exact ih

theorem fsLookup_fsRemove (fs : FS) (p q : String) :
    fsLookup (fsRemove fs p) q = if q = p then none else fsLookup fs q := by
  unfold fsRemove fsLookup
  rw [lookup_filter_key fs (fun k => decide (k ≠ p)) q]
  by_cases h : q = p <;> simp [h]

theorem fsLookup_fsSet (fs : FS) (p q : String) (n : Node) :
    fsLookup (fsSet fs p n) q = if q = p then some n else fsLookup fs q := by
  unfold fsSet
  show fsLookup ((p, n) :: fsRemove fs p) q = _
  unfold fsLookup
  rw [lookup_cons]
  by_cases h : q = p
  · simp [h]
  · simp only [if_neg h]
    have := fsLookup_fsRemove fs p q
    unfold fsLookup at this
    simp [this, h]

theorem fsLookup_rmtree (fs : FS) (p q : String) :
    fsLookup (rmtree fs p) q =
      if q = p ∨ strStarts q (p ++ "/") then none else fsLookup fs q := by
  unfold rmtree fsLookup
  rw [lookup_filter_key fs (fun k => decide (k ≠ p ∧ ¬ strStarts k (p ++ "/") = true)) q]
  by_cases h : q = p ∨ strStarts q (p ++ "/")
  · rw [if_pos h]
    rw [if_neg]
    simp only [decide_eq_true_eq, not_and_or, not_not, ne_eq]
    rcases h with h | h
    · left; simp [h]
    · right; simp [h]
  · rw [if_neg h]
    push_neg at h
    rw [if_pos (by simp [h.1, h.2])]

/- ## Selector evaluation lemmas -/

theorem isActive_host (ctx : Ctx) (fl : Nat) (cfg : Json) :
    isActive ctx fl (.host cfg) = hostIsActive ctx cfg := by
  cases fl <;> rfl

theorem hostLoop_map_str (f hn : String) (hosts : List String) :
    hostLoop f hn (hosts.map .str) = .ok (hosts.any (hostNameMatches f hn)) := by
  induction hosts with
  | nil => rfl
  | cons h rest ih =>
    simp only [List.map_cons, List.any_cons, hostLoop, hostNameMatches]
    by_cases h1 : h = "*"
    · simp [h1]
    · by_cases h2 : h = f
      · simp [h1, h2]
      · by_cases h3 : h = hn
        · simp [h1, h2, h3]
        · by_cases h4 : (strStarts h "." && strEnds f h) = true
          · simp [h1, h2, h3, h4]
          · simp only [if_neg h1, if_neg h2, if_neg h3, h4, Bool.false_eq_true, if_neg,
              not_false_iff, ih]
            have e1 : (h == "*") = false := beq_eq_false_iff_ne.mpr h1
            have e2 : (h == f) = false := beq_eq_false_iff_ne.mpr h2
            have e3 : (h == hn) = false := beq_eq_false_iff_ne.mpr h3
            simp [e1, e2, e3, h4, decide_eq_true_eq, h1, h2, h3]

theorem hostArr_ok_iff (ctx : Ctx) (fl : Nat) (hosts : List String) :
    isActive ctx fl (.host (.arr (hosts.map .str))) = .ok true ↔
      ∃ h ∈ hosts, h = "*" ∨ h = strLower ctx.fqdn ∨ h = takeUntilDot (strLower ctx.fqdn) ∨
        (strStarts h "." = true ∧ strEnds (strLower ctx.fqdn) h = true) := by
  rw [isActive_host]
  have hh : hostIsActive ctx (.arr (hosts.map .str)) =
      hostLoop (strLower ctx.fqdn) (takeUntilDot (strLower ctx.fqdn)) (hosts.map .str) := rfl
  rw [hh, hostLoop_map_str]
  constructor
  · intro h
    have : (hosts.any (hostNameMatches (strLower ctx.fqdn) (takeUntilDot (strLower ctx.fqdn)))) = true := by
      injection h
    obtain ⟨x, hx, hm⟩ := List.any_eq_true.mp this
    refine ⟨x, hx, ?_⟩
    unfold hostNameMatches at hm
    simp only [Bool.or_eq_true, decide_eq_true_eq, Bool.and_eq_true] at hm
    tauto
  · rintro ⟨x, hx, hm⟩
    have : (hosts.any (hostNameMatches (strLower ctx.fqdn) (takeUntilDot (strLower ctx.fqdn)))) = true := by
      refine List.any_eq_true.mpr ⟨x, hx, ?_⟩
      unfold hostNameMatches
      simp only [Bool.or_eq_true, decide_eq_true_eq, Bool.and_eq_true]
      tauto
    rw [this]

/- ## Claim C3 -/

/-- C3: the module docstring (and the spec) advertise a `cmd` selector kind
(command run via the shell, exit code 0 = active), but `SELECTOR_MAPPINGS`
in `create_selectors` has no `cmd` entry, so building a selector tree that
contains the key `cmd` does not succeed: it raises
`ValueError("unknown selector: cmd")`.  This theorem evaluates the
embedded builder at the docstring's own example configuration. -/
theorem C3_cmd_selector_rejected :
    create_selectors (.obj [("cmd", .str "test -f ~/.gitconfig")]) =
      .error (.valueError "unknown selector: cmd") := rfl

/- ## Claim C6 -/

/-- C6: `Host` evaluation lower-cases the FQDN, derives the short hostname
by truncating at the first `.`, and is active exactly when some configured
name equals `*`, equals the (lowered) FQDN, equals the short hostname, or
starts with `.` and is a suffix of the FQDN; in particular `Host(["*"])`
is active for any FQDN, `Host([".example.com"])` is active for
`a.b.example.com` and inactive for `example.org`, and `Host(["myhost"])`
is active whenever the short hostname is `myhost`, regardless of domain. -/
theorem C6_host_rules :
    (∀ (ctx : Ctx) (fl : Nat) (hosts : List String),
      isActive ctx fl (.host (.arr (hosts.map .str))) = .ok true ↔
        ∃ h ∈ hosts, h = "*" ∨ h = strLower ctx.fqdn ∨ h = takeUntilDot (strLower ctx.fqdn) ∨
          (strStarts h "." = true ∧ strEnds (strLower ctx.fqdn) h = true))
    ∧ (∀ (ctx : Ctx) (fl : Nat), isActive ctx fl (.host (.arr [.str "*"])) = .ok true)
    ∧ (∀ (fl : Nat) (dirs files : List String) (venv : List (String × String)) (home : String),
        isActive ⟨"a.b.example.com", dirs, files, venv, home⟩ fl
            (.host (.arr [.str ".example.com"])) = .ok true ∧
        isActive ⟨"example.org", dirs, files, venv, home⟩ fl
            (.host (.arr [.str ".example.com"])) = .ok false)
    ∧ (∀ (ctx : Ctx) (fl : Nat), takeUntilDot (strLower ctx.fqdn) = "myhost" →
        isActive ctx fl (.host (.arr [.str "myhost"])) = .ok true) := by
  refine ⟨hostArr_ok_iff, ?_, ?_, ?_⟩
  · intro ctx fl
    exact (hostArr_ok_iff ctx fl ["*"]).mpr ⟨"*", by simp, Or.inl rfl⟩
  · intro fl dirs files venv home
    constructor
    · exact (hostArr_ok_iff _ fl [".example.com"]).mpr
        ⟨".example.com", by simp, Or.inr (Or.inr (Or.inr ⟨rfl, rfl⟩))⟩
    · rw [isActive_host]; rfl
  · intro ctx fl hshort
    exact (hostArr_ok_iff ctx fl ["myhost"]).mpr
      ⟨"myhost", by simp, Or.inr (Or.inr (Or.inl hshort.symm))⟩

/-- Witness for C6: the hypothesis of the last conjunct discharged at the
concrete FQDN `MyHost.local`. -/
theorem C6_host_rules_witness :
    isActive ⟨"MyHost.local", [], [], [], ""⟩ 1 (.host (.arr [.str "myhost"])) = .ok true :=
  C6_host_rules.2.2.2 ⟨"MyHost.local", [], [], [], ""⟩ 1 (by decide)

/- ## Claim C8 -/

/-- C8: an `and` selector over an empty child set evaluates to `true` and
an `or` selector over an empty child set evaluates to `false` (the
universal/existential identities), for every evaluation context (and every
positive recursion fuel). -/
theorem C8_and_or_empty (ctx : Ctx) (n : Nat) :
    isActive ctx (n + 1) (.and (.obj [])) = .ok true ∧
    isActive ctx (n + 1) (.or (.obj [])) = .ok false :=
  ⟨rfl, rfl⟩

/- ## Claim C10 -/

/-- C10: evaluating a `not` selector whose configured value is the empty
JSON object does not produce a ConfigError: the exactly-one-child check
only rejects objects with more than one entry, so the zero-entry case
falls through to indexing the empty child list, which is an unhandled
`IndexError` crash (a distinct `Err` constructor from the
`valueError`/`osError` configuration errors). -/
theorem C10_not_empty_crashes (ctx : Ctx) (n : Nat) :
    isActive ctx (n + 1) (.not (.obj [])) = .error .indexError := rfl

/- ## Copies lemmas and Claim C1 -/

theorem copies_fold_preserve (ppath : String) (l : List (String × String))
    (acc : List (String × String)) (t : String) (h : t ∉ l.map Prod.snd) :
    (l.foldl (fun acc kv => alSet acc kv.2 (pjoin ppath kv.1)) acc).lookup t = acc.lookup t := by
  induction l generalizing acc with
  | nil => rfl
  | cons kv rest ih =>
    simp only [List.map_cons, List.mem_cons, not_or] at h
    simp only [List.foldl_cons]
    rw [ih _ h.2, alSet_lookup_other _ _ _ _ h.1]

theorem copies_fold_mem (ppath : String) (l : List (String × String))
    (acc : List (String × String)) (k t : String)
    (hmem : (k, t) ∈ l) (hnd : (l.map Prod.snd).Nodup) :
    (l.foldl (fun acc kv => alSet acc kv.2 (pjoin ppath kv.1)) acc).lookup t =
      some (pjoin ppath k) := by
  induction l generalizing acc with
  | nil => simp at hmem
  | cons kv rest ih =>
    simp only [List.map_cons, List.nodup_cons] at hnd
    simp only [List.foldl_cons]
    rcases List.mem_cons.mp hmem with h1 | h1
    · obtain ⟨rfl, rfl⟩ : kv.1 = k ∧ kv.2 = t := by
        constructor <;> exact congrArg _ h1.symm
      rw [copies_fold_preserve _ _ _ _ hnd.1, alSet_lookup_self]
    · exact ih _ h1 hnd.2

/-- C1 counterexample: the claim says `get_copies` resolves entries by the
same rules as `get_symlinks` over the same-shaped map (configured key =
expanded, home-resolved target; configured value = profile-resolved
source).  At the concrete profile with `copies = {"a": "b"}` the code
produces the map `{"b": join(profile.path, "a")}` — key and value play the
opposite roles, and no expansion or home resolution happens — which
differs from the spec-described resolution `{join(home, "a"):
join(profile.path, "b")}`. -/
theorem C1_copies_counterexample :
    get_copies ⟨"p", "/h/.myenv/p", [], [("a", "b")]⟩ ≠
      desiredCopiesSpec [] "/h" ⟨"p", "/h/.myenv/p", [], [("a", "b")]⟩ ∧
    (get_copies ⟨"p", "/h/.myenv/p", [], [("a", "b")]⟩).lookup "b" =
      some "/h/.myenv/p/a" ∧
    (desiredCopiesSpec [] "/h" ⟨"p", "/h/.myenv/p", [], [("a", "b")]⟩).lookup "/h/a" =
      some "/h/.myenv/p/b" ∧
    (get_copies ⟨"p", "/h/.myenv/p", [], [("a", "b")]⟩).lookup "/h/a" = none := by
  decide

/-- C1 amended: `get_copies` is computed per-profile and imposes none of
the symlink validation (no existence check, no home-directory or
absolute-path restriction), but its resolution swaps the roles the claim
describes: each configured value `t` (taken verbatim — no expansion, made
relative to home only later, at apply time) maps to the source
`join(profile.path, k)` built from the configured key. -/
theorem C1_amended_copies_resolution (p : MProfile) (k t : String)
    (hmem : (k, t) ∈ p.copies) (hnd : (p.copies.map Prod.snd).Nodup) :
    (get_copies p).lookup t = some (pjoin p.path k) :=
  copies_fold_mem p.path p.copies [] k t hmem hnd

/-- Witness for the amended C1 at a concrete profile. -/
theorem C1_amended_witness :
    (get_copies ⟨"p", "/pp", [], [("a", "b")]⟩).lookup "b" = some (pjoin "/pp" "a") :=
  C1_amended_copies_resolution ⟨"p", "/pp", [], [("a", "b")]⟩ "a" "b" (by decide) (by decide)

/- ## Profile activation lemmas and Claim C9 -/

theorem select_profiles_mem (ctx : Ctx) (fl : Nat) :
    ∀ (ps act : List RProfile), select_profiles ctx fl ps = .ok act →
      ∀ r ∈ act, profileIsActive ctx fl r = .ok true := by
  intro ps
  induction ps with
  | nil =>
    intro act h r hr
    simp only [select_profiles] at h
    cases h
    simp at hr
  | cons p rest ih =>
    intro act h r hr
    simp only [select_profiles, bind, Except.bind] at h
    cases hb : profileIsActive ctx fl p with
    | error e => rw [hb] at h; cases h
    | ok b =>
      rw [hb] at h
      cases ht : select_profiles ctx fl rest with
      | error e => rw [ht] at h; cases h
      | ok tail =>
        rw [ht] at h
        cases b with
        | true =>
          simp only [if_pos] at h
          cases h
          rcases List.mem_cons.mp hr with h1 | h1
          · subst h1; exact hb
          · exact ih _ ht r h1
        | false =>
          simp only [Bool.false_eq_true, if_neg, not_false_iff] at h
          cases h
          exact ih _ ht r hr

theorem profileIsActive_mkFailed (ctx : Ctx) (fl : Nat) (name path : String) :
    profileIsActive ctx fl (mkFailedProfile name path) = .ok false := by
  cases fl <;> rfl

/-- C9: a profile whose descriptor fails to parse is marked invalid
(`safeToWrite` false) and given a `Never` selector; it is never in the
active set produced by `select_profiles`, `saveJson` writes nothing back
for it (the descriptor on disk stays as it is), and the discovery loop
loads the surrounding profiles normally around it. -/
theorem C9_invalid_profile_quarantined :
    (∀ name path, loadJson name path none = .ok (mkFailedProfile name path))
    ∧ (∀ name path, (mkFailedProfile name path).safeToWrite = false ∧
        (mkFailedProfile name path).selector = some [.never] ∧
        saveJson (mkFailedProfile name path) = none)
    ∧ (∀ (ctx : Ctx) (fl : Nat) (ps act : List RProfile) (name path : String),
        select_profiles ctx fl ps = .ok act → mkFailedProfile name path ∉ act)
    ∧ (∀ (pre post : List (String × String × Option Json)) (name path : String)
        (lpre lpost : List RProfile),
        loadAll pre = .ok lpre → loadAll post = .ok lpost →
        loadAll (pre ++ (name, path, none) :: post) =
          .ok (lpre ++ mkFailedProfile name path :: lpost)) := by
  refine ⟨fun name path => rfl, fun name path => ⟨rfl, rfl, rfl⟩, ?_, ?_⟩
  · intro ctx fl ps act name path hsel hmem
    have := select_profiles_mem ctx fl ps act hsel _ hmem
    rw [profileIsActive_mkFailed] at this
    cases this
  · intro pre
    induction pre with
    | nil =>
      intro post name path lpre lpost hpre hpost
      simp only [loadAll] at hpre
      cases hpre
      simp only [List.nil_append, loadAll, bind, Except.bind, loadJson]
      rw [hpost]
    | cons x rest ih =>
      intro post name path lpre lpost hpre hpost
      simp only [loadAll, bind, Except.bind] at hpre
      cases hx : loadJson x.1 x.2.1 x.2.2 with
      | error e => rw [hx] at hpre; cases hpre
      | ok px =>
        rw [hx] at hpre
        cases hrest : loadAll rest with
        | error e => rw [hrest] at hpre; cases hpre
        | ok lrest =>
          rw [hrest] at hpre
          cases hpre
          simp only [List.cons_append, loadAll, bind, Except.bind, List.append_eq]
          rw [hx, ih post name path lrest lpost hrest hpost]

/-- Witness for C9: the activation and loading conjuncts applied at
concrete inputs (an empty active set, and a discovery list with a good
profile before the broken one). -/
theorem C9_invalid_profile_witness :
    mkFailedProfile "bad" "/h/.myenv/bad" ∉ ([] : List RProfile) ∧
    loadAll [("a", "/h/.myenv/a", some (.obj [])), ("bad", "/h/.myenv/bad", none)] =
      .ok [⟨"a", "/h/.myenv/a", true, some (.obj []), none⟩,
           mkFailedProfile "bad" "/h/.myenv/bad"] :=
  ⟨C9_invalid_profile_quarantined.2.2.1 ⟨"f", [], [], [], ""⟩ 1 [] [] "bad" "/h/.myenv/bad" rfl,
   C9_invalid_profile_quarantined.2.2.2 [("a", "/h/.myenv/a", some (.obj []))] []
     "bad" "/h/.myenv/bad" [⟨"a", "/h/.myenv/a", true, some (.obj []), none⟩] [] rfl rfl⟩

/- ## Environment aggregation lemmas and Claim C7 -/

theorem envStep_kind_mono {venv : List (String × String)} {home : String} {p : EProfile}
    {ret ret2 : List (String × RetVal)} {kv : String × EnvVal} {k : String} {b : Bool}
    (hok : envStep venv home p ret kv = .ok ret2) (hk : retKind ret k = some b) :
    retKind ret2 k = some b := by
  unfold envStep at hok
  unfold retKind at hk ⊢
  cases hv : kv.2 with
  | vstr v =>
    rw [hv] at hok
    cases hl : ret.lookup kv.1 with
    | none =>
      rw [hl] at hok
      simp only [Except.ok.injEq] at hok
      subst hok
      by_cases hkk : k = kv.1
      · subst hkk; rw [hl] at hk; cases hk
      · rw [alSet_lookup_other _ _ _ _ hkk]; exact hk
    | some rv =>
      cases rv with
      | rstr s =>
        rw [hl] at hok
        simp only [Except.ok.injEq] at hok
        subst hok
        by_cases hkk : k = kv.1
        · subst hkk
          rw [hl] at hk
          rw [alSet_lookup_self]
          simpa using hk
        · rw [alSet_lookup_other _ _ _ _ hkk]; exact hk
      | rlist l => rw [hl] at hok; cases hok
  | vlist l =>
    rw [hv] at hok
    cases hl : ret.lookup kv.1 with
    | none =>
      rw [hl] at hok
      simp only [Except.ok.injEq] at hok
      subst hok
      by_cases hkk : k = kv.1
      · subst hkk; rw [hl] at hk; cases hk
      · rw [lookup_append_single_other _ _ _ _ hkk]; exact hk
    | some rv =>
      cases rv with
      | rstr s => rw [hl] at hok; cases hok
      | rlist old =>
        rw [hl] at hok
        simp only [Except.ok.injEq] at hok
        subst hok
        by_cases hkk : k = kv.1
        · subst hkk
          rw [hl] at hk
          rw [alSet_lookup_self]
          simpa using hk
        · rw [alSet_lookup_other _ _ _ _ hkk]; exact hk
  | vother =>
    rw [hv] at hok
    cases hok

theorem envProfileGo_kind_mono {venv : List (String × String)} {home : String} {p : EProfile}
    {k : String} {b : Bool} :
    ∀ {l : List (String × EnvVal)} {ret ret2 : List (String × RetVal)},
      envProfileGo venv home p ret l = .ok ret2 → retKind ret k = some b →
      retKind ret2 k = some b := by
  intro l
  induction l with
  | nil =>
    intro ret ret2 h hk
    simp only [envProfileGo] at h
    cases h
    exact hk
  | cons kv rest ih =>
    intro ret ret2 h hk
    simp only [envProfileGo, bind, Except.bind] at h
    cases hs : envStep venv home p ret kv with
    | error e => rw [hs] at h; cases h
    | ok ret1 =>
      rw [hs] at h
      exact ih h (envStep_kind_mono hs hk)

theorem envAllGo_kind_mono {venv : List (String × String)} {home : String}
    {k : String} {b : Bool} :
    ∀ {ps : List EProfile} {ret ret2 : List (String × RetVal)},
      envAllGo venv home ret ps = .ok ret2 → retKind ret k = some b →
      retKind ret2 k = some b := by
  intro ps
  induction ps with
  | nil =>
    intro ret ret2 h hk
    simp only [envAllGo] at h
    cases h
    exact hk
  | cons p rest ih =>
    intro ret ret2 h hk
    simp only [envAllGo, bind, Except.bind] at h
    cases hs : envProfileGo venv home p ret p.env with
    | error e => rw [hs] at h; cases h
    | ok ret1 =>
      rw [hs] at h
      exact ih h (envProfileGo_kind_mono hs hk)

theorem envStep_sets_str {venv : List (String × String)} {home : String} {p : EProfile}
    {ret ret2 : List (String × RetVal)} {k : String} {sv : String}
    (hok : envStep venv home p ret (k, .vstr sv) = .ok ret2) :
    retKind ret2 k = some false := by
  unfold envStep at hok
  simp only at hok
  unfold retKind
  cases hl : ret.lookup k with
  | none =>
    rw [hl] at hok
    simp only [Except.ok.injEq] at hok
    subst hok
    rw [alSet_lookup_self]
  | some rv =>
    cases rv with
    | rstr s =>
      rw [hl] at hok
      simp only [Except.ok.injEq] at hok
      subst hok
      rw [alSet_lookup_self]
    | rlist l => rw [hl] at hok; cases hok

theorem envStep_sets_list {venv : List (String × String)} {home : String} {p : EProfile}
    {ret ret2 : List (String × RetVal)} {k : String} {lv : List String}
    (hok : envStep venv home p ret (k, .vlist lv) = .ok ret2) :
    retKind ret2 k = some true := by
  unfold envStep at hok
  simp only at hok
  unfold retKind
  cases hl : ret.lookup k with
  | none =>
    rw [hl] at hok
    simp only [Except.ok.injEq] at hok
    subst hok
    rw [lookup_append_single_self _ _ _ (by rw [hl]; simp)]
  | some rv =>
    cases rv with
    | rstr s => rw [hl] at hok; cases hok
    | rlist old =>
      rw [hl] at hok
      simp only [Except.ok.injEq] at hok
      subst hok
      rw [alSet_lookup_self]

theorem envProfileGo_sets_str {venv : List (String × String)} {home : String} {p : EProfile}
    {k : String} {sv : String} :
    ∀ {l : List (String × EnvVal)} {ret ret2 : List (String × RetVal)},
      (k, .vstr sv) ∈ l → envProfileGo venv home p ret l = .ok ret2 →
      retKind ret2 k = some false := by
  intro l
  induction l with
  | nil => intro ret ret2 hm; simp at hm
  | cons kv rest ih =>
    intro ret ret2 hm h
    simp only [envProfileGo, bind, Except.bind] at h
    cases hs : envStep venv home p ret kv with
    | error e => rw [hs] at h; cases h
    | ok ret1 =>
      rw [hs] at h
      rcases List.mem_cons.mp hm with h1 | h1
      · subst h1
        exact envProfileGo_kind_mono h (envStep_sets_str hs)
      · exact ih h1 h

theorem envProfileGo_sets_list {venv : List (String × String)} {home : String} {p : EProfile}
    {k : String} {lv : List String} :
    ∀ {l : List (String × EnvVal)} {ret ret2 : List (String × RetVal)},
      (k, .vlist lv) ∈ l → envProfileGo venv home p ret l = .ok ret2 →
      retKind ret2 k = some true := by
  intro l
  induction l with
  | nil => intro ret ret2 hm; simp at hm
  | cons kv rest ih =>
    intro ret ret2 hm h
    simp only [envProfileGo, bind, Except.bind] at h
    cases hs : envStep venv home p ret kv with
    | error e => rw [hs] at h; cases h
    | ok ret1 =>
      rw [hs] at h
      rcases List.mem_cons.mp hm with h1 | h1
      · subst h1
        exact envProfileGo_kind_mono h (envStep_sets_list hs)
      · exact ih h1 h

theorem envStep_str_conflict {venv : List (String × String)} {home : String} {p : EProfile}
    {ret : List (String × RetVal)} {k : String} {sv : String}
    (hk : retKind ret k = some true) :
    ∃ e, envStep venv home p ret (k, .vstr sv) = .error e := by
  unfold retKind at hk
  unfold envStep
  simp only
  cases hl : ret.lookup k with
  | none => rw [hl] at hk; cases hk
  | some rv =>
    cases rv with
    | rstr s => rw [hl] at hk; cases hk
    | rlist l => exact ⟨_, rfl⟩

theorem envStep_list_conflict {venv : List (String × String)} {home : String} {p : EProfile}
    {ret : List (String × RetVal)} {k : String} {lv : List String}
    (hk : retKind ret k = some false) :
    ∃ e, envStep venv home p ret (k, .vlist lv) = .error e := by
  unfold retKind at hk
  unfold envStep
  simp only
  cases hl : ret.lookup k with
  | none => rw [hl] at hk; cases hk
  | some rv =>
    cases rv with
    | rstr s => exact ⟨_, rfl⟩
    | rlist l => rw [hl] at hk; cases hk

theorem envProfileGo_conflict_str {venv : List (String × String)} {home : String}
    {p : EProfile} {k : String} {sv : String} :
    ∀ {l : List (String × EnvVal)} {ret : List (String × RetVal)},
      retKind ret k = some true → (k, .vstr sv) ∈ l →
      ∃ e, envProfileGo venv home p ret l = .error e := by
  intro l
  induction l with
  | nil => intro ret _ hm; simp at hm
  | cons kv rest ih =>
    intro ret hk hm
    simp only [envProfileGo, bind, Except.bind]
    rcases List.mem_cons.mp hm with h1 | h1
    · subst h1
      obtain ⟨e, he⟩ := @envStep_str_conflict venv home p ret k sv hk
      rw [he]
      exact ⟨e, rfl⟩
    · cases hs : envStep venv home p ret kv with
      | error e => exact ⟨e, rfl⟩
      | ok ret1 => exact ih (envStep_kind_mono hs hk) h1

theorem envProfileGo_conflict_list {venv : List (String × String)} {home : String}
    {p : EProfile} {k : String} {lv : List String} :
    ∀ {l : List (String × EnvVal)} {ret : List (String × RetVal)},
      retKind ret k = some false → (k, .vlist lv) ∈ l →
      ∃ e, envProfileGo venv home p ret l = .error e := by
  intro l
  induction l with
  | nil => intro ret _ hm; simp at hm
  | cons kv rest ih =>
    intro ret hk hm
    simp only [envProfileGo, bind, Except.bind]
    rcases List.mem_cons.mp hm with h1 | h1
    · subst h1
      obtain ⟨e, he⟩ := @envStep_list_conflict venv home p ret k lv hk
      rw [he]
      exact ⟨e, rfl⟩
    · cases hs : envStep venv home p ret kv with
      | error e => exact ⟨e, rfl⟩
      | ok ret1 => exact ih (envStep_kind_mono hs hk) h1

theorem envAllGo_append (venv : List (String × String)) (home : String)
    (xs ys : List EProfile) (ret : List (String × RetVal)) :
    envAllGo venv home ret (xs ++ ys) =
      match envAllGo venv home ret xs with
      | .error e => .error e
      | .ok r => envAllGo venv home r ys := by
  induction xs generalizing ret with
  | nil => simp [envAllGo]
  | cons p rest ih =>
    simp only [List.cons_append, envAllGo, bind, Except.bind]
    cases hs : envProfileGo venv home p ret p.env with
    | error e => rfl
    | ok ret1 => exact ih ret1

/-- C7: if one active profile records a variable as a scalar string and a
later active profile supplies a list for the same name (or vice versa),
environment aggregation fails with a `ValueError` (the spec's
`ConfigError`), and — because the export list is only rendered from a
successfully built accumulator — no partial export list for the variable
is emitted. -/
theorem C7_env_conflict (venv : List (String × String)) (home : String)
    (pre mid post : List EProfile) (A B : EProfile) (k : String)
    (hconf : ((∃ sv, (k, .vstr sv) ∈ A.env) ∧ (∃ lv, (k, .vlist lv) ∈ B.env)) ∨
             ((∃ lv, (k, .vlist lv) ∈ A.env) ∧ (∃ sv, (k, .vstr sv) ∈ B.env))) :
    ∃ e, generateDotProfile venv home (pre ++ A :: mid ++ B :: post) = .error e := by
  suffices h : ∃ e, envAllGo venv home [] (pre ++ A :: mid ++ B :: post) = .error e by
    obtain ⟨e, he⟩ := h
    refine ⟨e, ?_⟩
    unfold generateDotProfile
    simp only [bind, Except.bind, he]
  rw [envAllGo_append]
  cases hL : envAllGo venv home [] (pre ++ A :: mid) with
  | error e => exact ⟨e, rfl⟩
  | ok rM =>
    show ∃ e, envAllGo venv home rM (B :: post) = .error e
    rw [envAllGo_append] at hL
    cases hpre : envAllGo venv home [] pre with
    | error e => rw [hpre] at hL; cases hL
    | ok r0 =>
      rw [hpre] at hL
      simp only [envAllGo, bind, Except.bind] at hL
      cases hA : envProfileGo venv home A r0 A.env with
      | error e => rw [hA] at hL; cases hL
      | ok rA =>
        rw [hA] at hL
        simp only [envAllGo, bind, Except.bind]
        rcases hconf with ⟨⟨sv, hAs⟩, ⟨lv, hBl⟩⟩ | ⟨⟨lv, hAl⟩, ⟨sv, hBs⟩⟩
        · have hkA : retKind rA k = some false := envProfileGo_sets_str hAs hA
          have hkM : retKind rM k = some false := envAllGo_kind_mono hL hkA
          obtain ⟨e, he⟩ := @envProfileGo_conflict_list venv home B k lv B.env rM hkM hBl
          rw [he]
          exact ⟨e, rfl⟩
        · have hkA : retKind rA k = some true := envProfileGo_sets_list hAl hA
          have hkM : retKind rM k = some true := envAllGo_kind_mono hL hkA
          obtain ⟨e, he⟩ := @envProfileGo_conflict_str venv home B k sv B.env rM hkM hBs
          rw [he]
          exact ⟨e, rfl⟩

/-- Witness for C7: two concrete profiles, the first setting `FOO` as a
string, the second as a list. -/
theorem C7_env_conflict_witness :
    ∃ e, generateDotProfile [] "/h"
      [⟨"a", "/h/.myenv/a", [("FOO", .vstr "x")]⟩,
       ⟨"b", "/h/.myenv/b", [("FOO", .vlist ["y"])]⟩] = .error e :=
  C7_env_conflict [] "/h" [] [] [] ⟨"a", "/h/.myenv/a", [("FOO", .vstr "x")]⟩
    ⟨"b", "/h/.myenv/b", [("FOO", .vlist ["y"])]⟩ "FOO"
    (Or.inl ⟨⟨"x", by decide⟩, ⟨["y"], by decide⟩⟩)

/- ## Symlink map lemmas, Claims C2 and C4 -/

theorem getSymlinksGo_error_of_home (venv : List (String × String)) (home : String)
    (fl : Nat) (fs : FS) (p : MProfile) (k v : String)
    (hrp : realpath fs fl (if isabs (expand venv home k) then expand venv home k
                           else pjoin home (expand venv home k)) = home) :
    ∀ (l : List (String × String)) (acc : List (String × String)), (k, v) ∈ l →
      ∃ e, getSymlinksGo venv home fl fs p acc l = .error e := by
  intro l
  induction l with
  | nil => intro acc hm; simp at hm
  | cons kv0 rest ih =>
    intro acc hm
    simp only [getSymlinksGo, bind, Except.bind]
    cases hs : getSymlinksStep venv home fl fs p acc kv0 with
    | error e => exact ⟨e, rfl⟩
    | ok acc2 =>
      rcases List.mem_cons.mp hm with h1 | h1
      · subst h1
        unfold getSymlinksStep at hs
        simp only at hs
        rw [if_pos hrp] at hs
        split_ifs at hs
      · exact ih acc2 h1

/-- C2 counterexample: with a stale symlink `/h/stale -> /h/.myenv/old`
directly in home and a single profile whose symlink entry targets the home
directory itself, the install pipeline removes the stale link in the
pre-pass and only then rejects the entry: the rejection error is reported,
yet the filesystem has already been mutated. -/
theorem C2_mutation_before_rejection :
    let fs0 : FS := [("/h", .dir), ("/h/.myenv", .dir), ("/h/.myenv/p", .dir),
                     ("/h/.myenv/p/f", .file), ("/h/stale", .link "/h/.myenv/old")]
    let r := runSymlinkReconcile [] "/h" "/h/.myenv" 8 fs0
      [⟨"p", "/h/.myenv/p", [("/h", "f")], []⟩]
    r.2 = some (.osError "/h points to your entire home directory (defined in profile p)") ∧
    fsLookup fs0 "/h/stale" = some (.link "/h/.myenv/old") ∧
    fsLookup r.1 "/h/stale" = none := by
  decide

/-- C2 amended: a symlink entry whose resolved target path is (after
resolving symlinks) exactly the home directory makes `get_symlinks` fail
for its profile, and a failing `get_symlinks` aborts `installProfile`
before any destroy or create step for that profile — the filesystem is
returned exactly as it was at the start of that profile's install.  The
home-directory pre-pass (and earlier profiles' reconciliation) run before
this rejection, however, so filesystem mutation may already have
happened. -/
theorem C2_amended_home_guard :
    (∀ (venv : List (String × String)) (home : String) (fl : Nat) (fs : FS)
       (p : MProfile) (k v : String), (k, v) ∈ p.symlinks →
       realpath fs fl (if isabs (expand venv home k) then expand venv home k
                       else pjoin home (expand venv home k)) = home →
       ∃ e, get_symlinks venv home fl fs p = .error e)
    ∧ (∀ (venv : List (String × String)) (home : String) (fl : Nat) (fs : FS)
        (p : MProfile) (e : Err), get_symlinks venv home fl fs p = .error e →
        installProfile venv home fl fs p = (fs, some e)) := by
  constructor
  · intro venv home fl fs p k v hm hrp
    exact getSymlinksGo_error_of_home venv home fl fs p k v hrp p.symlinks [] hm
  · intro venv home fl fs p e he
    unfold installProfile
    rw [he]

/-- Witness for the amended C2 at a concrete profile whose entry resolves
to the home directory. -/
theorem C2_amended_witness :
    (∃ e, get_symlinks [] "/h" 8
        [("/h", .dir), ("/h/.myenv", .dir), ("/h/.myenv/p", .dir), ("/h/.myenv/p/f", .file)]
        ⟨"p", "/h/.myenv/p", [("/h", "f")], []⟩ = .error e) ∧
    installProfile [] "/h" 8
        [("/h", .dir), ("/h/.myenv", .dir), ("/h/.myenv/p", .dir), ("/h/.myenv/p/f", .file)]
        ⟨"p", "/h/.myenv/p", [("/h", "f")], []⟩ =
      ([("/h", .dir), ("/h/.myenv", .dir), ("/h/.myenv/p", .dir), ("/h/.myenv/p/f", .file)],
       some (.osError "/h points to your entire home directory (defined in profile p)")) :=
  ⟨C2_amended_home_guard.1 [] "/h" 8 _ _ "/h" "f" (by decide) (by decide),
   C2_amended_home_guard.2 [] "/h" 8 _ _
     (.osError "/h points to your entire home directory (defined in profile p)") (by decide)⟩

/-- C4, evaluating the code at the failing input: the pre-pass removal
test is a raw-string `startswith` on the unresolved `readlink` value, not
"resolves to a path under the profile-storage directory".  The link
`/h/x -> /h/.myenvother/f` does not resolve under `/h/.myenv`, yet
`beforeInstall` removes it; the link `/h/y -> .myenv/z` (relative target)
does resolve under `/h/.myenv`, yet `beforeInstall` leaves it alone. -/
theorem C4_raw_readlink_removal :
    let fs0 : FS := [("/h", .dir), ("/h/.myenv", .dir), ("/h/.myenv/z", .file),
                     ("/h/x", .link "/h/.myenvother/f"), ("/h/y", .link ".myenv/z")]
    pathUnder "/h/.myenv" (realpath fs0 8 "/h/.myenvother/f") = false ∧
    fsLookup (beforeInstall "/h" "/h/.myenv" fs0) "/h/x" = none ∧
    pathUnder "/h/.myenv" (realpath fs0 8 "/h/y") = true ∧
    fsLookup (beforeInstall "/h" "/h/.myenv" fs0) "/h/y" = some (.link ".myenv/z") := by
  decide

/- ## Path and string lemmas -/

theorem strStarts_iff (s pre : String) : strStarts s pre = true ↔ pre.data <+: s.data := by
  unfold strStarts
  exact List.isPrefixOf_iff_prefix

theorem strStarts_append (a b : String) : strStarts (a ++ b) a = true := by
  rw [strStarts_iff, strData_append]
  exact List.prefix_append _ _

theorem contains_false_ne {l : List Char} {c : Char} (h : l.contains c = false)
    {x : Char} (hx : x ∈ l) : x ≠ c := by
  intro he
  subst he
  rw [show l.contains x = l.elem x from rfl] at h
  rw [List.elem_eq_true_of_mem hx] at h
  cases h

theorem dropWhile_append_all {p : Char → Bool} {l1 : List Char} (l2 : List Char)
    (h : ∀ c ∈ l1, p c = true) :
    (l1 ++ l2).dropWhile p = l2.dropWhile p := by
  induction l1 with
  | nil => rfl
  | cons c r ih =>
    simp only [List.cons_append, List.dropWhile_cons, h c (by simp)]
    exact ih (fun d hd => h d (by simp [hd]))

theorem strMk_data (s : String) : (⟨s.data⟩ : String) = s := by cases s; rfl

theorem strStarts_self_slash (home : String) : strStarts home (home ++ "/") = false := by
  by_contra hc
  rw [Bool.not_eq_false] at hc
  have hlen := ((strStarts_iff _ _).mp hc).length_le
  rw [strData_append] at hlen
  simp only [List.length_append, show ("/" : String).data = ['/'] from rfl,
    List.length_cons, List.length_nil] at hlen
  omega

theorem isDirectChild_spec {home q : String} (h : isDirectChild home q = true) :
    ∃ r : List Char, q.data = home.data ++ '/' :: r ∧ r ≠ [] ∧ r.contains '/' = false := by
  unfold isDirectChild at h
  simp only [Bool.and_eq_true, decide_eq_true_eq, Bool.not_eq_true'] at h
  obtain ⟨h1, h2, h3⟩ := h
  obtain ⟨t, ht⟩ := (strStarts_iff _ _).mp h1
  have hdrop : q.data.drop (home ++ "/").data.length = t := by
    rw [← ht]
    exact List.drop_left _ _
  refine ⟨t, ?_, ?_, ?_⟩
  · rw [← ht, strData_append]
    simp [show ("/" : String).data = ['/'] from rfl]
  · exact hdrop ▸ h2
  · have h4 := hdrop ▸ h3
    simpa using h4

theorem isDirectChild_mk (home : String) (r : List Char) (hr : r ≠ [])
    (hc : r.contains '/' = false) :
    isDirectChild home ⟨home.data ++ '/' :: r⟩ = true := by
  unfold isDirectChild
  have h1 : strStarts ⟨home.data ++ '/' :: r⟩ (home ++ "/") = true := by
    rw [strStarts_iff, strData_append]
    simp only [show ("/" : String).data = ['/'] from rfl]
    exact ⟨r, by simp⟩
  rw [h1]
  have hdrop : (⟨home.data ++ '/' :: r⟩ : String).data.drop (home ++ "/").data.length = r := by
    show (home.data ++ '/' :: r).drop (home ++ "/").data.length = r
    rw [strData_append]
    simp only [show ("/" : String).data = ['/'] from rfl]
    have : home.data ++ '/' :: r = (home.data ++ ['/']) ++ r := by simp
    rw [this, List.length_append]
    simpa using List.drop_left (home.data ++ ['/']) r
  simp only [hdrop]
  have hnm : '/' ∉ r := fun hm => (contains_false_ne hc hm) rfl
  simp [hr, hnm]

theorem isabs_false_of_noslash {f : String} (h1 : f.data ≠ [])
    (h2 : f.data.contains '/' = false) : isabs f = false := by
  unfold isabs
  cases hd : f.data with
  | nil => exact absurd hd h1
  | cons c rest =>
    have hne : c ≠ '/' := contains_false_ne h2 (by rw [hd]; exact List.mem_cons_self _ _)
    rw [Bool.eq_false_iff]
    intro hc
    obtain ⟨t, ht⟩ := (strStarts_iff _ _).mp hc
    rw [hd] at ht
    have : ("/" : String).data = ['/'] := rfl
    rw [this] at ht
    simp only [List.cons_append, List.nil_append] at ht
    exact hne (by injection ht with h _; exact h.symm)

theorem pjoin_abs (a b : String) (h : isabs b = true) : pjoin a b = b := by
  unfold pjoin
  rw [if_pos h]

theorem pjoin_relative (home f : String) (hend : strEnds home "/" = false)
    (habs : isabs f = false) : pjoin home f = home ++ "/" ++ f := by
  unfold pjoin
  rw [if_neg (by simp [habs]), if_neg (by simp [hend])]

theorem home_tail_structure {home : String} (habs : isabs home = true)
    (hend : strEnds home "/" = false) :
    ∃ c rest, home.data.reverse = c :: rest ∧ c ≠ '/' := by
  have hne : home.data ≠ [] := by
    intro hd
    unfold isabs strStarts at habs
    rw [hd] at habs
    cases habs
  have hrevne : home.data.reverse ≠ [] := by simpa using hne
  cases hr : home.data.reverse with
  | nil => exact absurd hr hrevne
  | cons c rest =>
    refine ⟨c, rest, rfl, ?_⟩
    intro he
    subst he
    unfold strEnds at hend
    have : (['/'] : List Char) <:+ home.data := by
      rw [← List.reverse_prefix]
      simp only [List.reverse_cons, List.reverse_nil, List.nil_append, hr]
      exact ⟨rest, by simp⟩
    rw [(List.isSuffixOf_iff_suffix).mpr (by simpa using this)] at hend
    cases hend

theorem dirname_direct (home : String) (r : List Char)
    (habs : isabs home = true) (hend : strEnds home "/" = false)
    (hc : r.contains '/' = false) :
    dirname ⟨home.data ++ '/' :: r⟩ = home := by
  obtain ⟨c, rest, hrev, hcne⟩ := home_tail_structure habs hend
  unfold dirname
  have hrev1 : (⟨home.data ++ '/' :: r⟩ : String).data.reverse = r.reverse ++ '/' :: home.data.reverse := by
    show (home.data ++ '/' :: r).reverse = _
    simp
  have hdrop : ((⟨home.data ++ '/' :: r⟩ : String).data.reverse.dropWhile (fun c => c != '/')) =
      '/' :: home.data.reverse := by
    rw [hrev1]
    rw [dropWhile_append_all _ (fun d hd => by
      have := contains_false_ne hc (List.mem_reverse.mp hd)
      simpa using this)]
    simp [List.dropWhile_cons]
  rw [hdrop]
  have hhead : ('/' :: home.data.reverse).reverse = home.data ++ ['/'] := by simp
  rw [hhead]
  have hnotall : ¬ (home.data ++ ['/']).all (fun c => decide (c = '/')) = true := by
    intro hall
    rw [List.all_eq_true] at hall
    have hcmem : c ∈ home.data ++ ['/'] := by
      apply List.mem_append_left
      rw [← List.mem_reverse, hrev]
      exact List.mem_cons_self _ _
    have := hall c hcmem
    simp only [decide_eq_true_eq] at this
    exact hcne this
  rw [if_neg hnotall]
  have : (home.data ++ ['/']).reverse.dropWhile (fun c => decide (c = '/')) = home.data.reverse := by
    simp only [List.reverse_append, List.reverse_cons, List.reverse_nil, List.nil_append,
      List.singleton_append, List.dropWhile_cons]
    rw [hrev]
    simp [hcne]
  rw [this]
  simp [strMk_data]

theorem direct_ne_home {home q : String} (h : isDirectChild home q = true) : q ≠ home := by
  obtain ⟨r, hq, _, _⟩ := isDirectChild_spec h
  intro he
  subst he
  have : q.data.length = q.data.length + 1 + r.length := by
    conv_lhs => rw [hq]
    simp only [List.length_append, List.length_cons]
    omega
  omega

theorem strStarts_elim {t home : String} (hts : strStarts t home = true) (htne : t ≠ home) :
    ∃ x : List Char, t.data = home.data ++ x ∧ x ≠ [] := by
  obtain ⟨x, hx⟩ := (strStarts_iff _ _).mp hts
  refine ⟨x, hx.symm, ?_⟩
  intro he
  subst he
  exact htne (strData_inj (by simpa using hx.symm))

theorem direct_not_under_target {home t q : String}
    (hq : isDirectChild home q = true)
    (hts : strStarts t home = true) (htne : t ≠ home) :
    strStarts q (t ++ "/") = false := by
  obtain ⟨r, hqd, hrne, hrc⟩ := isDirectChild_spec hq
  obtain ⟨x, hxd, hxne⟩ := strStarts_elim hts htne
  rw [Bool.eq_false_iff]
  intro hc
  have hpre := (strStarts_iff _ _).mp hc
  rw [strData_append, hxd, hqd, show ("/" : String).data = ['/'] from rfl,
    List.append_assoc] at hpre
  have hpre2 : x ++ ['/'] <+: '/' :: r := (List.prefix_append_right_inj home.data).mp hpre
  cases hx : x with
  | nil => exact hxne hx
  | cons c x2 =>
    rw [hx] at hpre2
    simp only [List.cons_append] at hpre2
    obtain ⟨hcd, hrest⟩ := List.cons_prefix_cons.mp hpre2
    subst hcd
    have hmem : '/' ∈ x2 ++ ['/'] := by simp
    have : ('/' : Char) ∈ r := hrest.subset hmem
    exact (contains_false_ne hrc this) rfl

theorem home_not_under_target {home t : String} (hts : strStarts t home = true)
    (htne : t ≠ home) :
    ¬ (home = t ∨ strStarts home (t ++ "/") = true) := by
  obtain ⟨x, hxd, hxne⟩ := strStarts_elim hts htne
  rintro (h1 | h1)
  · exact htne h1.symm
  · have hlen := ((strStarts_iff _ _).mp h1).length_le
    rw [strData_append, hxd, show ("/" : String).data = ['/'] from rfl] at hlen
    simp only [List.length_append, List.length_cons, List.length_nil] at hlen
    have : x.length ≠ 0 := by simpa using hxne
    omega

theorem isabs_of_starts {home t : String} (habs : isabs home = true)
    (hts : strStarts t home = true) : isabs t = true := by
  unfold isabs at *
  rw [strStarts_iff] at *
  exact habs.trans hts

/- ## Symlink map purity and target well-formedness -/

theorem strAppend_assoc (a b c : String) : (a ++ b) ++ c = a ++ (b ++ c) := by
  apply strData_inj
  simp only [strData_append, List.append_assoc]

theorem strStarts_pjoin_home (home k : String) (h : isabs k = false) :
    strStarts (pjoin home k) home = true := by
  unfold pjoin
  rw [if_neg (by simp [h])]
  split_ifs
  · exact strStarts_append home k
  · rw [strAppend_assoc]
    exact strStarts_append home _

theorem realpath_dir {fs : FS} {home : String} (fl : Nat)
    (h : fsLookup fs home = some .dir) : realpath fs fl home = home := by
  cases fl with
  | zero => rfl
  | succ n =>
    unfold realpath
    rw [h]

theorem getSymlinksStep_ok_elim {venv : List (String × String)} {home : String} {fl : Nat}
    {fs : FS} {p : MProfile} {acc acc2 : List (String × String)} {kv : String × String}
    (hs : getSymlinksStep venv home fl fs p acc kv = .ok acc2) :
    acc2 = alSet acc
        (if isabs (expand venv home kv.1) then expand venv home kv.1
         else pjoin home (expand venv home kv.1))
        (pjoin p.path (expand venv home kv.2)) ∧
      strStarts (if isabs (expand venv home kv.1) then expand venv home kv.1
                 else pjoin home (expand venv home kv.1)) home = true ∧
      realpath fs fl (if isabs (expand venv home kv.1) then expand venv home kv.1
                      else pjoin home (expand venv home kv.1)) ≠ home := by
  unfold getSymlinksStep at hs
  simp only at hs
  by_cases h0 : isabs (expand venv home kv.1) = true
  · simp only [h0, if_pos] at hs ⊢
    split_ifs at hs with c1 c2 c3 c4
    · exact ⟨by injection hs with h; exact h.symm, c4, c2⟩
    · exact absurd trivial c3
  · simp only [h0, Bool.false_eq_true, if_neg, not_false_iff] at hs ⊢
    split_ifs at hs with c1 c2 c3 c4
    · exact ⟨by injection hs with h; exact h.symm, c4, c2⟩
    · exact ⟨by injection hs with h; exact h.symm,
        strStarts_pjoin_home home _ (by simpa using h0), c2⟩

theorem getSymlinksGo_ok_pure (venv : List (String × String)) (home : String) (fl : Nat)
    (fs : FS) (p : MProfile) :
    ∀ (l acc : List (String × String)) (m : List (String × String)),
      getSymlinksGo venv home fl fs p acc l = .ok m → m = symlinkMapPure venv home p acc l := by
  intro l
  induction l with
  | nil =>
    intro acc m h
    simp only [getSymlinksGo] at h
    cases h
    rfl
  | cons kv rest ih =>
    intro acc m h
    simp only [getSymlinksGo, bind, Except.bind] at h
    cases hs : getSymlinksStep venv home fl fs p acc kv with
    | error e => rw [hs] at h; cases h
    | ok acc2 =>
      rw [hs] at h
      obtain ⟨hacc2, _, _⟩ := getSymlinksStep_ok_elim hs
      subst hacc2
      simp only [symlinkMapPure]
      exact ih _ _ h

theorem get_symlinks_ok_pure {venv : List (String × String)} {home : String} {fl : Nat}
    {fs : FS} {p : MProfile} {m : List (String × String)}
    (h : get_symlinks venv home fl fs p = .ok m) :
    m = symlinkMapPure venv home p [] p.symlinks :=
  getSymlinksGo_ok_pure venv home fl fs p p.symlinks [] m h

theorem getSymlinksGo_ok_targets (venv : List (String × String)) (home : String) (fl : Nat)
    (fs : FS) (p : MProfile) (hhome : fsLookup fs home = some .dir) :
    ∀ (l acc : List (String × String)) (m : List (String × String)),
      getSymlinksGo venv home fl fs p acc l = .ok m →
      (∀ tv ∈ acc, strStarts tv.1 home = true ∧ tv.1 ≠ home) →
      ∀ tv ∈ m, strStarts tv.1 home = true ∧ tv.1 ≠ home := by
  intro l
  induction l with
  | nil =>
    intro acc m h hacc
    simp only [getSymlinksGo] at h
    cases h
    exact hacc
  | cons kv rest ih =>
    intro acc m h hacc
    simp only [getSymlinksGo, bind, Except.bind] at h
    cases hs : getSymlinksStep venv home fl fs p acc kv with
    | error e => rw [hs] at h; cases h
    | ok acc2 =>
      rw [hs] at h
      obtain ⟨hacc2, hkk, hrp⟩ := getSymlinksStep_ok_elim hs
      refine ih _ _ h ?_
      intro tv htv
      rw [hacc2] at htv
      rcases alSet_mem htv with h1 | h1
      · exact hacc tv h1
      · have h2 : tv.1 = (if isabs (expand venv home kv.1) = true then expand venv home kv.1
            else pjoin home (expand venv home kv.1)) := by rw [h1]
        rw [h2]
        refine ⟨hkk, ?_⟩
        intro he
        rw [he] at hrp
        exact hrp (realpath_dir fl hhome)

theorem get_symlinks_ok_targets {venv : List (String × String)} {home : String} {fl : Nat}
    {fs : FS} {p : MProfile} {m : List (String × String)}
    (h : get_symlinks venv home fl fs p = .ok m) (hhome : fsLookup fs home = some .dir) :
    ∀ tv ∈ m, strStarts tv.1 home = true ∧ tv.1 ≠ home :=
  getSymlinksGo_ok_targets venv home fl fs p hhome p.symlinks [] m h (by simp)

theorem symlinkMapPure_keys_nodup (venv : List (String × String)) (home : String)
    (p : MProfile) :
    ∀ (l acc : List (String × String)), ((acc.map Prod.fst).Nodup) →
      (((symlinkMapPure venv home p acc l).map Prod.fst).Nodup) := by
  intro l
  induction l with
  | nil => intro acc h; exact h
  | cons kv rest ih =>
    intro acc h
    simp only [symlinkMapPure]
    exact ih _ (alSet_keys_nodup _ _ _ h)

/- ## Destroy and create phase lemmas -/

theorem lexists_false_lookup {fs : FS} {p : String} (h : lexists fs p = false) :
    fsLookup fs p = none := by
  unfold lexists at h
  cases hl : fsLookup fs p with
  | none => rfl
  | some n => rw [hl] at h; cases h

theorem destroyEntry_ok_elim {fl : Nat} {p : MProfile} {fs fs2 : FS} {tv : String × String}
    (h : destroyEntry fl p fs tv = .ok fs2) :
    (∀ q, q ≠ tv.1 → strStarts q (tv.1 ++ "/") = false → fsLookup fs2 q = fsLookup fs q) ∧
    fsLookup fs2 tv.1 = none ∧
    (∀ q, fsLookup fs2 q = none ∨ fsLookup fs2 q = fsLookup fs q) := by
  unfold destroyEntry at h
  simp only at h
  split_ifs at h with c1 c2 c3 c4 c5 c6
  · -- symlink: remove
    injection h with h
    subst h
    refine ⟨fun q hq _ => by rw [fsLookup_fsRemove, if_neg hq], ?_, ?_⟩
    · rw [fsLookup_fsRemove, if_pos rfl]
    · intro q
      rw [fsLookup_fsRemove]
      by_cases hq : q = tv.1
      · simp [hq]
      · simp [hq]
  · -- directory: rmtree
    injection h with h
    subst h
    refine ⟨fun q hq hq2 => ?_, ?_, ?_⟩
    · rw [fsLookup_rmtree, if_neg (by simp [hq, hq2])]
    · rw [fsLookup_rmtree, if_pos (Or.inl rfl)]
    · intro q
      rw [fsLookup_rmtree]
      by_cases hq : q = tv.1 ∨ strStarts q (tv.1 ++ "/") = true
      · simp [hq]
      · simp [hq]
  · -- file: remove
    injection h with h
    subst h
    refine ⟨fun q hq _ => by rw [fsLookup_fsRemove, if_neg hq], ?_, ?_⟩
    · rw [fsLookup_fsRemove, if_pos rfl]
    · intro q
      rw [fsLookup_fsRemove]
      by_cases hq : q = tv.1
      · simp [hq]
      · simp [hq]
  · -- no entry at target
    injection h with h
    subst h
    exact ⟨fun _ _ _ => rfl, lexists_false_lookup (by simpa using c1), fun q => Or.inr rfl⟩

theorem destroyAll_ok_elim {fl : Nat} {p : MProfile} :
    ∀ {m : List (String × String)} {fs fs2 : FS}, destroyAll fl p fs m = (fs2, none) →
      (∀ q, (∀ tv ∈ m, q ≠ tv.1 ∧ strStarts q (tv.1 ++ "/") = false) →
        fsLookup fs2 q = fsLookup fs q) ∧
      (∀ tv ∈ m, fsLookup fs2 tv.1 = none) ∧
      (∀ q, fsLookup fs2 q = none ∨ fsLookup fs2 q = fsLookup fs q) := by
  intro m
  induction m with
  | nil =>
    intro fs fs2 h
    simp only [destroyAll] at h
    cases h
    exact ⟨fun _ _ => rfl, by simp, fun _ => Or.inr rfl⟩
  | cons tv rest ih =>
    intro fs fs2 h
    simp only [destroyAll] at h
    cases hd : destroyEntry fl p fs tv with
    | error e => rw [hd] at h; cases h
    | ok fs1 =>
      rw [hd] at h
      obtain ⟨hoff, hself, hshrink⟩ := destroyEntry_ok_elim hd
      obtain ⟨ihoff, ihself, ihshrink⟩ := ih h
      refine ⟨?_, ?_, ?_⟩
      · intro q hq
        rw [ihoff q (fun tv2 htv2 => hq tv2 (by simp [htv2]))]
        exact hoff q (hq tv (by simp)).1 (hq tv (by simp)).2
      · intro tv2 htv2
        rcases List.mem_cons.mp htv2 with h1 | h1
        · subst h1
          rcases ihshrink tv2.1 with h2 | h2
          · exact h2
          · rw [h2]; exact hself
        · exact ihself tv2 h1
      · intro q
        rcases ihshrink q with h2 | h2
        · exact Or.inl h2
        · rw [h2]
          exact hshrink q

theorem createEntry_off {home : String} {fl : Nat} {fs : FS} {tv : String × String}
    {q : String} (hq : q ≠ pjoin home tv.1) :
    fsLookup (createEntry home fl fs tv) q = fsLookup fs q := by
  unfold createEntry
  simp only
  split_ifs
  · rfl
  · rw [fsLookup_fsSet, if_neg hq]
  · rfl

theorem createAll_off {home : String} {fl : Nat} :
    ∀ {m : List (String × String)} {fs : FS} {q : String},
      (∀ tv ∈ m, q ≠ pjoin home tv.1) →
      fsLookup (createAll home fl fs m) q = fsLookup fs q := by
  intro m
  induction m with
  | nil => intro fs q _; rfl
  | cons tv rest ih =>
    intro fs q hq
    simp only [createAll]
    rw [ih (fun tv2 htv2 => hq tv2 (by simp [htv2]))]
    exact createEntry_off (hq tv (by simp))

theorem createEntry_preserves {home : String} {fl : Nat} {fs : FS} {tv : String × String}
    {q : String} (hq : q ≠ pjoin home tv.1) (n : Node) (h : fsLookup fs q = some n) :
    fsLookup (createEntry home fl fs tv) q = some n := by
  rw [createEntry_off hq]
  exact h

theorem createAll_at {home : String} {fl1 : Nat} :
    ∀ {m : List (String × String)} {fs : FS} {q s : String},
      ((m.map Prod.fst).Nodup) →
      (∀ tv ∈ m, tv.1 ≠ home ∧ isabs tv.1 = true) →
      fsLookup fs home = some .dir →
      m.lookup q = some s →
      fsLookup fs q = none →
      dirname q = home →
      fsLookup (createAll home (fl1 + 1) fs m) q = some (.link s) := by
  intro m
  induction m with
  | nil => intro fs q s _ _ _ hlk _ _; simp [List.lookup] at hlk
  | cons tv rest ih =>
    intro fs q s hnd hwf hhome hlk hnone hdir
    obtain ⟨t0, v0⟩ := tv
    rw [lookup_cons] at hlk
    simp only [List.map_cons, List.nodup_cons] at hnd
    by_cases hq : q = t0
    · subst hq
      simp only [if_pos rfl] at hlk
      injection hlk with hlk
      subst hlk
      simp only [createAll]
      have hdest : pjoin home q = q := pjoin_abs home q (hwf (q, v0) (by simp)).2
      have hce : fsLookup (createEntry home (fl1 + 1) fs (q, v0)) q = some (.link v0) := by
        unfold createEntry
        simp only
        rw [hdest]
        rw [if_neg (by simp [lexists, hnone])]
        rw [hdir]
        rw [if_neg (by simp [isdirF, hhome])]
        rw [fsLookup_fsSet, if_pos rfl]
      rw [createAll_off (fun tv2 htv2 => ?_)]
      · exact hce
      · -- q is not a key of rest
        have habs2 := (hwf tv2 (by simp [htv2])).2
        rw [pjoin_abs home tv2.1 habs2]
        intro he
        rw [he] at hnd
        exact hnd.1 (List.mem_map.mpr ⟨tv2, htv2, rfl⟩)
    · simp only [if_neg hq] at hlk
      simp only [createAll]
      refine ih hnd.2 (fun tv2 htv2 => hwf tv2 (by simp [htv2])) ?_ hlk ?_ hdir
      · -- home entry preserved by this create
        rw [createEntry_off ?_]
        · exact hhome
        · rw [pjoin_abs home t0 (hwf (t0, v0) (by simp)).2]
          exact Ne.symm (hwf (t0, v0) (by simp)).1
      · rw [createEntry_off ?_]
        · exact hnone
        · rw [pjoin_abs home t0 (hwf (t0, v0) (by simp)).2]
          exact hq

/- ## Install and run lemmas -/

theorem installProfile_ok_elim {venv : List (String × String)} {home : String} {fl : Nat}
    {fs fs2 : FS} {p : MProfile} (h : installProfile venv home fl fs p = (fs2, none)) :
    ∃ m fsd, get_symlinks venv home fl fs p = .ok m ∧
      destroyAll fl p fs m = (fsd, none) ∧ fs2 = createAll home fl fsd m := by
  unfold installProfile at h
  cases hg : get_symlinks venv home fl fs p with
  | error e => rw [hg] at h; cases h
  | ok m =>
    rw [hg] at h
    replace h : (match destroyAll fl p fs m with
      | (fsx, some e) => (fsx, some e)
      | (fsx, none) => (createAll home fl fsx m, none)) = (fs2, none) := h
    cases hd : destroyAll fl p fs m with
    | mk fsd err =>
      rw [hd] at h
      cases err with
      | some e => simp at h
      | none =>
        simp only [Prod.mk.injEq] at h
        exact ⟨m, fsd, rfl, hd, h.1.symm⟩

theorem installProfile_preserves_home {venv : List (String × String)} {home : String}
    {fl : Nat} {fs fs2 : FS} {p : MProfile}
    (h : installProfile venv home fl fs p = (fs2, none)) (habs : isabs home = true)
    (hhome : fsLookup fs home = some .dir) :
    fsLookup fs2 home = some .dir := by
  obtain ⟨m, fsd, hg, hd, hc⟩ := installProfile_ok_elim h
  have hwf := get_symlinks_ok_targets hg hhome
  obtain ⟨hoff, _, _⟩ := destroyAll_ok_elim hd
  have hfsd : fsLookup fsd home = some .dir := by
    rw [hoff home ?_]
    · exact hhome
    · intro tv htv
      obtain ⟨hts, htne⟩ := hwf tv htv
      have := home_not_under_target hts htne
      push_neg at this
      exact ⟨fun he => this.1 he, by simpa using this.2⟩
  rw [hc]
  rw [createAll_off ?_]
  · exact hfsd
  · intro tv htv
    obtain ⟨hts, htne⟩ := hwf tv htv
    rw [pjoin_abs home tv.1 (isabs_of_starts habs hts)]
    exact Ne.symm htne

theorem installProfile_direct_off {venv : List (String × String)} {home : String}
    {fl : Nat} {fs fs2 : FS} {p : MProfile} {q : String}
    (h : installProfile venv home fl fs p = (fs2, none)) (habs : isabs home = true)
    (hhome : fsLookup fs home = some .dir) (hq : isDirectChild home q = true)
    (hnone : (symlinkMapPure venv home p [] p.symlinks).lookup q = none) :
    fsLookup fs2 q = fsLookup fs q := by
  obtain ⟨m, fsd, hg, hd, hc⟩ := installProfile_ok_elim h
  have hm := get_symlinks_ok_pure hg
  have hwf := get_symlinks_ok_targets hg hhome
  have hnotkey : ∀ tv ∈ m, q ≠ tv.1 := by
    rintro ⟨t1, v1⟩ htv he
    simp only at he
    subst he
    have hsome := mem_lookup_isSome htv
    rw [hm, hnone] at hsome
    cases hsome
  obtain ⟨hoff, _, _⟩ := destroyAll_ok_elim hd
  have hfsd : fsLookup fsd q = fsLookup fs q := by
    apply hoff
    intro tv htv
    obtain ⟨hts, htne⟩ := hwf tv htv
    exact ⟨hnotkey tv htv, direct_not_under_target hq hts htne⟩
  rw [hc]
  rw [createAll_off ?_]
  · exact hfsd
  · intro tv htv
    rw [pjoin_abs home tv.1 (isabs_of_starts habs (hwf tv htv).1)]
    exact hnotkey tv htv

theorem installProfile_direct_at {venv : List (String × String)} {home : String}
    {fl1 : Nat} {fs fs2 : FS} {p : MProfile} {q s : String}
    (h : installProfile venv home (fl1 + 1) fs p = (fs2, none)) (habs : isabs home = true)
    (hend : strEnds home "/" = false)
    (hhome : fsLookup fs home = some .dir) (hq : isDirectChild home q = true)
    (hlk : (symlinkMapPure venv home p [] p.symlinks).lookup q = some s) :
    fsLookup fs2 q = some (.link s) := by
  obtain ⟨m, fsd, hg, hd, hc⟩ := installProfile_ok_elim h
  have hm := get_symlinks_ok_pure hg
  have hwf := get_symlinks_ok_targets hg hhome
  obtain ⟨hoff, hkeys, hshrink⟩ := destroyAll_ok_elim hd
  have hqkey : m.lookup q = some s := by rw [hm]; exact hlk
  have hmem : (q, s) ∈ m := lookup_mem hqkey
  have hfsdq : fsLookup fsd q = none := hkeys (q, s) hmem
  have hfsdhome : fsLookup fsd home = some .dir := by
    rw [hoff home ?_]
    · exact hhome
    · intro tv htv
      obtain ⟨hts, htne⟩ := hwf tv htv
      have h2 := home_not_under_target hts htne
      push_neg at h2
      exact ⟨fun he => h2.1 he, by simpa using h2.2⟩
  obtain ⟨r, hqd, hrne, hrc⟩ := isDirectChild_spec hq
  have hqeq : q = ⟨home.data ++ '/' :: r⟩ := strData_inj hqd
  have hdq : dirname q = home := by
    rw [hqeq]
    exact dirname_direct home r habs hend hrc
  have hnd : (m.map Prod.fst).Nodup := by
    rw [hm]
    exact symlinkMapPure_keys_nodup venv home p p.symlinks [] (by simp)
  rw [hc]
  exact createAll_at hnd
    (fun tv htv => ⟨(hwf tv htv).2, isabs_of_starts habs (hwf tv htv).1⟩)
    hfsdhome hqkey hfsdq hdq

theorem installAll_ok_cons {venv : List (String × String)} {home : String} {fl : Nat}
    {fs fs2 : FS} {p : MProfile} {ps : List MProfile}
    (h : installAll venv home fl fs (p :: ps) = (fs2, none)) :
    ∃ fsp, installProfile venv home fl fs p = (fsp, none) ∧
      installAll venv home fl fsp ps = (fs2, none) := by
  simp only [installAll] at h
  cases hp : installProfile venv home fl fs p with
  | mk fsp err =>
    rw [hp] at h
    cases err with
    | none => exact ⟨fsp, rfl, h⟩
    | some e => simp at h

theorem installAll_preserves_home {venv : List (String × String)} {home : String} {fl : Nat} :
    ∀ {ps : List MProfile} {fs fs2 : FS},
      installAll venv home fl fs ps = (fs2, none) → isabs home = true →
      fsLookup fs home = some .dir → fsLookup fs2 home = some .dir := by
  intro ps
  induction ps with
  | nil =>
    intro fs fs2 h _ hhome
    simp only [installAll, Prod.mk.injEq] at h
    rw [← h.1]
    exact hhome
  | cons p rest ih =>
    intro fs fs2 h habs hhome
    obtain ⟨fsp, hp, hrest⟩ := installAll_ok_cons h
    exact ih hrest habs (installProfile_preserves_home hp habs hhome)

theorem installAll_track {venv : List (String × String)} {home : String} {fl1 : Nat} :
    ∀ {ps : List MProfile} {fs fs2 : FS},
      installAll venv home (fl1 + 1) fs ps = (fs2, none) →
      isabs home = true → strEnds home "/" = false →
      fsLookup fs home = some .dir →
      ∀ q, isDirectChild home q = true →
        fsLookup fs2 q = (match lastTargetVal venv home ps q with
          | some s => some (.link s)
          | none => fsLookup fs q) := by
  intro ps
  induction ps with
  | nil =>
    intro fs fs2 h _ _ _ q _
    simp only [installAll, Prod.mk.injEq] at h
    rw [← h.1]
    rfl
  | cons p rest ih =>
    intro fs fs2 h habs hend hhome q hq
    obtain ⟨fsp, hp, hrest⟩ := installAll_ok_cons h
    have hhome2 := installProfile_preserves_home hp habs hhome
    have ihq := ih hrest habs hend hhome2 q hq
    simp only [lastTargetVal]
    cases hlast : lastTargetVal venv home rest q with
    | some s =>
      rw [hlast] at ihq
      exact ihq
    | none =>
      rw [hlast] at ihq
      cases hpq : (symlinkMapPure venv home p [] p.symlinks).lookup q with
      | some s =>
        rw [ihq]
        exact installProfile_direct_at hp habs hend hhome hq hpq
      | none =>
        rw [ihq]
        exact installProfile_direct_off hp habs hhome hq hpq

/- ## Pre-pass characterization -/

theorem removeFound_lookup (home : String) :
    ∀ (L : List String) (fs : FS) (q : String),
      fsLookup (removeFound home fs L) q =
        if q ∈ L.map (pjoin home) then none else fsLookup fs q := by
  intro L
  induction L with
  | nil => intro fs q; simp [removeFound]
  | cons f rest ih =>
    intro fs q
    simp only [removeFound, List.map_cons, List.mem_cons]
    rw [ih]
    by_cases h1 : q ∈ rest.map (pjoin home)
    · rw [if_pos h1, if_pos (Or.inr h1)]
    · rw [if_neg h1]
      by_cases h2 : q = pjoin home f
      · rw [if_pos (Or.inl h2)]
        subst h2
        by_cases h3 : lexists fs (pjoin home f) = true
        · rw [if_pos h3, fsLookup_fsRemove, if_pos rfl]
        · rw [if_neg h3]
          exact lexists_false_lookup (by simpa using h3)
      · have hnotor : ¬ (q = pjoin home f ∨ q ∈ List.map (pjoin home) rest) := by tauto
        rw [if_neg hnotor]
        by_cases h3 : lexists fs (pjoin home f) = true
        · rw [if_pos h3, fsLookup_fsRemove, if_neg h2]
        · rw [if_neg h3]

theorem homeSlash_data (home : String) : (home ++ "/").data = home.data ++ ['/'] := by
  rw [strData_append]

theorem mem_find_map_iff {fs : FS} {home pdir q : String} (hend : strEnds home "/" = false) :
    q ∈ (find_symlinks fs home pdir).map (pjoin home) ↔
      prepassRemoves home pdir fs q = true := by
  constructor
  · intro hm
    obtain ⟨f, hf, hfq⟩ := List.mem_map.mp hm
    unfold find_symlinks at hf
    obtain ⟨hfl, hpred⟩ := List.mem_filter.mp hf
    unfold listdir at hfl
    obtain ⟨e, hefs, hecomp⟩ := List.mem_filterMap.mp hfl
    by_cases hpre : strStarts e.1 (home ++ "/") = true
    · rw [if_pos hpre] at hecomp
      set r := e.1.data.drop (home ++ "/").data.length with hr
      by_cases hcond : r ≠ [] ∧ ¬ r.contains '/'
      · rw [if_pos hcond] at hecomp
        injection hecomp with hecomp
        have hrne : r ≠ [] := hcond.1
        have hrc : r.contains '/' = false := by simpa using hcond.2
        obtain ⟨t2, ht2⟩ := (strStarts_iff _ _).mp hpre
        have hrd : r = t2 := by
          rw [hr, ← ht2]
          exact List.drop_left _ _
        have hedata : e.1.data = home.data ++ '/' :: r := by
          rw [hrd, ← ht2, homeSlash_data]
          simp
        have hfdata : f.data = r := by rw [← hecomp]
        have habs : isabs f = false :=
          isabs_false_of_noslash (by rw [hfdata]; exact hrne) (by rw [hfdata]; exact hrc)
        have hqe : q = e.1 := by
          rw [← hfq, pjoin_relative home f hend habs]
          apply strData_inj
          rw [strData_append, strData_append, hedata, hfdata]
          simp [show ("/" : String).data = ['/'] from rfl]
        unfold prepassRemoves
        have hqdc : isDirectChild home q = true := by
          have : q = ⟨home.data ++ '/' :: r⟩ := by
            rw [hqe]
            exact strData_inj (by rw [hedata])
          rw [this]
          exact isDirectChild_mk home r hrne hrc
        rw [hqdc]
        simp only [Bool.true_and]
        have hlk : fsLookup fs q = fsLookup fs (pjoin home f) := by
          rw [hfq]
        rw [hlk]
        exact hpred
      · rw [if_neg hcond] at hecomp
        cases hecomp
    · rw [if_neg hpre] at hecomp
      cases hecomp
  · intro hp
    unfold prepassRemoves at hp
    rw [Bool.and_eq_true] at hp
    obtain ⟨hdc, hlk⟩ := hp
    obtain ⟨r, hqd, hrne, hrc⟩ := isDirectChild_spec hdc
    cases hfsq : fsLookup fs q with
    | none => rw [hfsq] at hlk; cases hlk
    | some n =>
      cases n with
      | file => rw [hfsq] at hlk; cases hlk
      | dir => rw [hfsq] at hlk; cases hlk
      | link t =>
        rw [hfsq] at hlk
        have hmem : (q, Node.link t) ∈ fs := lookup_mem hfsq
        have habsf : isabs (⟨r⟩ : String) = false := isabs_false_of_noslash hrne hrc
        have hpj : pjoin home ⟨r⟩ = q := by
          rw [pjoin_relative home _ hend habsf]
          apply strData_inj
          rw [strData_append, strData_append, hqd]
          simp [show ("/" : String).data = ['/'] from rfl]
        refine List.mem_map.mpr ⟨⟨r⟩, ?_, hpj⟩
        unfold find_symlinks
        refine List.mem_filter.mpr ⟨?_, ?_⟩
        · unfold listdir
          refine List.mem_filterMap.mpr ⟨(q, Node.link t), hmem, ?_⟩
          have hpre : strStarts q (home ++ "/") = true := by
            rw [strStarts_iff, homeSlash_data, hqd]
            exact ⟨r, by simp⟩
          rw [if_pos hpre]
          have hdrop : q.data.drop (home ++ "/").data.length = r := by
            rw [hqd, homeSlash_data]
            have : home.data ++ '/' :: r = (home.data ++ ['/']) ++ r := by simp
            rw [this]
            simpa using List.drop_left (home.data ++ ['/']) r
          have hnm : '/' ∉ r := fun hm2 => (contains_false_ne hrc hm2) rfl
          rw [if_pos (by rw [hdrop]; exact ⟨hrne, by simp [hnm]⟩)]
          simp only [hdrop]
        · simp only
          rw [hpj, hfsq]
          exact hlk

theorem beforeInstall_lookup (home pdir : String) (fs : FS) (q : String)
    (hend : strEnds home "/" = false) :
    fsLookup (beforeInstall home pdir fs) q =
      if prepassRemoves home pdir fs q = true then none else fsLookup fs q := by
  unfold beforeInstall
  rw [removeFound_lookup]
  by_cases h : prepassRemoves home pdir fs q = true
  · rw [if_pos ((mem_find_map_iff hend).mpr h), if_pos h]
  · rw [if_neg (fun hm => h ((mem_find_map_iff hend).mp hm)), if_neg h]

theorem beforeInstall_preserves_home {home pdir : String} {fs : FS}
    (hend : strEnds home "/" = false) (hhome : fsLookup fs home = some .dir) :
    fsLookup (beforeInstall home pdir fs) home = some .dir := by
  rw [beforeInstall_lookup home pdir fs home hend]
  rw [if_neg ?_]
  · exact hhome
  · unfold prepassRemoves
    rw [hhome]
    simp

/- ## Claim C5 -/

/-- C5 counterexample: unchanged profiles, unchanged initial filesystem,
and both reconciliation runs complete without any error, yet the end
states differ: profile `pi` targets `sub/d/x` inside the directory that
profile `pj`'s entry `sub/d` replaces with a symlink.  The first run
creates `sub/d/x` and then `rmtree`s it away with `sub/d`; the second run
finds `sub/d` as a link to `pj`'s directory and re-creates `sub/d/x`, so
the second end state contains a link the first did not. -/
theorem C5_not_idempotent :
    let fs0 : FS := [("/h", .dir), ("/h/sub", .dir), ("/h/sub/d", .dir),
      ("/h/.myenv", .dir), ("/h/.myenv/pi", .dir), ("/h/.myenv/pi/f1", .file),
      ("/h/.myenv/pj", .dir), ("/h/.myenv/pj/dd", .dir)]
    let ps : List MProfile := [⟨"pi", "/h/.myenv/pi", [("sub/d/x", "f1")], []⟩,
      ⟨"pj", "/h/.myenv/pj", [("sub/d", "dd")], []⟩]
    let r1 := runSymlinkReconcile [] "/h" "/h/.myenv" 8 fs0 ps
    let r2 := runSymlinkReconcile [] "/h" "/h/.myenv" 8 r1.1 ps
    r1.2 = none ∧ r2.2 = none ∧
    fsLookup r1.1 "/h/sub/d/x" = none ∧
    fsLookup r2.1 "/h/sub/d/x" = some (.link "/h/.myenv/pi/f1") := by
  decide

/-- C5 amended: with unchanged profiles, when both reconciliation runs
complete without a fatal error (and the home directory is a real
directory at an absolute, non-slash-terminated path), the two end states
agree on every path directly inside the home directory — the same set of
home-directory entries exists, with links pointing at the same targets.
The original claim's universal form is false: entries at deeper,
nested target paths can differ between the runs (see the
counterexample). -/
theorem C5_amended_direct_home_idempotence
    (venv : List (String × String)) (home pdir : String) (fl1 : Nat)
    (fs0 fs1 fs2 : FS) (ps : List MProfile)
    (habs : isabs home = true) (hend : strEnds home "/" = false)
    (hhome : fsLookup fs0 home = some .dir)
    (h1 : runSymlinkReconcile venv home pdir (fl1 + 1) fs0 ps = (fs1, none))
    (h2 : runSymlinkReconcile venv home pdir (fl1 + 1) fs1 ps = (fs2, none)) :
    ∀ q, isDirectChild home q = true → fsLookup fs2 q = fsLookup fs1 q := by
  intro q hq
  unfold runSymlinkReconcile at h1 h2
  have hhomeA : fsLookup (beforeInstall home pdir fs0) home = some .dir :=
    beforeInstall_preserves_home hend hhome
  have hhome1 : fsLookup fs1 home = some .dir :=
    installAll_preserves_home h1 habs hhomeA
  have hhomeB : fsLookup (beforeInstall home pdir fs1) home = some .dir :=
    beforeInstall_preserves_home hend hhome1
  have ht1 := installAll_track h1 habs hend hhomeA q hq
  have ht2 := installAll_track h2 habs hend hhomeB q hq
  cases hlast : lastTargetVal venv home ps q with
  | some s =>
    rw [hlast] at ht1 ht2
    replace ht1 : fsLookup fs1 q = some (.link s) := ht1
    replace ht2 : fsLookup fs2 q = some (.link s) := ht2
    rw [ht1, ht2]
  | none =>
    rw [hlast] at ht1 ht2
    replace ht1 : fsLookup fs1 q = fsLookup (beforeInstall home pdir fs0) q := ht1
    replace ht2 : fsLookup fs2 q = fsLookup (beforeInstall home pdir fs1) q := ht2
    rw [beforeInstall_lookup home pdir fs0 q hend] at ht1
    rw [beforeInstall_lookup home pdir fs1 q hend] at ht2
    by_cases hrem : prepassRemoves home pdir fs0 q = true
    · rw [if_pos hrem] at ht1
      have hrem2 : prepassRemoves home pdir fs1 q = false := by
        unfold prepassRemoves
        rw [ht1]
        simp
      rw [if_neg (by simp [hrem2])] at ht2
      rw [ht2]
    · rw [if_neg hrem] at ht1
      have hsame : prepassRemoves home pdir fs1 q = prepassRemoves home pdir fs0 q := by
        unfold prepassRemoves
        rw [ht1]
      rw [if_neg (by rw [hsame]; exact hrem)] at ht2
      rw [ht2, ht1]

/-- Witness for the amended C5: one dotfile profile reconciled twice on a
concrete filesystem; both runs succeed and the theorem yields agreement on
every direct home entry, evaluated at `/h/t`. -/
theorem C5_amended_witness :
    fsLookup (runSymlinkReconcile [] "/h" "/h/.myenv" 8
        (runSymlinkReconcile [] "/h" "/h/.myenv" 8
          [("/h", .dir), ("/h/.myenv", .dir), ("/h/.myenv/p", .dir), ("/h/.myenv/p/f", .file)]
          [⟨"p", "/h/.myenv/p", [("t", "f")], []⟩]).1
        [⟨"p", "/h/.myenv/p", [("t", "f")], []⟩]).1 "/h/t" =
      fsLookup (runSymlinkReconcile [] "/h" "/h/.myenv" 8
        [("/h", .dir), ("/h/.myenv", .dir), ("/h/.myenv/p", .dir), ("/h/.myenv/p/f", .file)]
        [⟨"p", "/h/.myenv/p", [("t", "f")], []⟩]).1 "/h/t" :=
  C5_amended_direct_home_idempotence [] "/h" "/h/.myenv" 7
    [("/h", .dir), ("/h/.myenv", .dir), ("/h/.myenv/p", .dir), ("/h/.myenv/p/f", .file)]
    (runSymlinkReconcile [] "/h" "/h/.myenv" 8
      [("/h", .dir), ("/h/.myenv", .dir), ("/h/.myenv/p", .dir), ("/h/.myenv/p/f", .file)]
      [⟨"p", "/h/.myenv/p", [("t", "f")], []⟩]).1
    (runSymlinkReconcile [] "/h" "/h/.myenv" 8
      (runSymlinkReconcile [] "/h" "/h/.myenv" 8
        [("/h", .dir), ("/h/.myenv", .dir), ("/h/.myenv/p", .dir), ("/h/.myenv/p/f", .file)]
        [⟨"p", "/h/.myenv/p", [("t", "f")], []⟩]).1
      [⟨"p", "/h/.myenv/p", [("t", "f")], []⟩]).1
    [⟨"p", "/h/.myenv/p", [("t", "f")], []⟩]
    (by decide) (by decide) (by decide) (by decide) (by decide)
    "/h/t" (by decide)
